import Mathlib

/-!
Shallow embedding of the `qrcodegen` Go package (QR-code encoder) and proofs
about it.  Go slices become `List`, machine integers become `Nat`/`Int` with
explicit wrapping where the Go code casts, and Go `panic` sites become
`Option`/`Except` failures.  Definitions follow the Go source function by
function; lemmas and claim theorems come after all definitions.
-/

set_option maxRecDepth 10000

namespace QRGen

/-! ### Small helpers (package.go) -/

/-- Models Go `bToI`: `true ↦ 1`, `false ↦ 0`. -/
def bToI (b : Bool) : Nat := if b then 1 else 0

/-- Models Go `bToModule` (modules are `1` = black, `0` = white). -/
def bToModule (b : Bool) : Nat := if b then 1 else 0

/-- Models Go `getBit`: `x >> i & 1`. -/
def getBit (x i : Nat) : Nat := (x >>> i) &&& 1

/-- Models Go `getBitAsBool`: `x >> i & 1 == 1`. -/
def getBitAsBool (x i : Nat) : Bool := (x >>> i) &&& 1 == 1

/-! ### Bit buffer (bitbuffer.go)

Go `appendBits(value, length)` appends the `length` low bits of `value`,
most-significant first, one byte (0/1) per bit.  Go panics when `length > 31`
or `value >> length ≠ 0`; every call site in this embedding satisfies that
contract (it is noted where it matters), so the function is modelled totally
as the MSB-first bit string of `value`. -/

/-- MSB-first bits `value>>(length-1)&1, …, value>>0&1` appended by Go
`bitBuffer.appendBits`. -/
def appendBitsList (value : Nat) : Nat → List Nat
  | 0 => []
  | n + 1 => ((value >>> n) &&& 1) :: appendBitsList value n

/-! ### Modes (mode.go) -/

/-- Models the Go `Mode` struct: a 4-bit mode indicator and the 3-entry
character-count field-width table. -/
structure Mode where
  modeBits : Nat
  nb0 : Nat
  nb1 : Nat
  nb2 : Nat
deriving DecidableEq, Repr

def Numeric : Mode := ⟨0x1, 10, 12, 14⟩

def Alphanumeric : Mode := ⟨0x2, 9, 11, 13⟩

def Byte : Mode := ⟨0x4, 8, 16, 16⟩

def kanji : Mode := ⟨0x8, 8, 10, 12⟩

def ECI : Mode := ⟨0x7, 0, 0, 0⟩

/-- Models Go `Mode.numCharCountBits`: `m.numBits[(version+7)/17]`.  For
`version ∈ [1,40]` the index `(version+7)/17` is `0`, `1` or `2`; outside that
range Go would panic on the 3-entry array, every theorem below keeps the
version in `[1,40]`. -/
def numCharCountBits (m : Mode) (version : Nat) : Nat :=
  match (version + 7) / 17 with
  | 0 => m.nb0
  | 1 => m.nb1
  | _ => m.nb2

/-! ### Segments (qrsegment.go) -/

/-- Models the Go `QRSegment` struct; `data` is the packed payload, one 0/1
entry per bit. -/
structure QRSegment where
  mode : Mode
  numChars : Nat
  data : List Nat
deriving DecidableEq, Repr

/-- Models Go `getTotalBits`'s loop; `result` is the running `int64` sum.
Returns `-1` when a segment's character count does not fit its field width
(`seg.NumChars >= 1<<ccBits`) or the running sum exceeds `math.MaxInt32`. -/
def getTotalBitsAux (version : Nat) : Int → List QRSegment → Int
  | result, [] => result
  | result, seg :: rest =>
    let ccBits := numCharCountBits seg.mode version
    if (1 <<< ccBits) ≤ seg.numChars then -1
    else
      let result := result + ((4 + ccBits + seg.data.length : Nat) : Int)
      if (2147483647 : Int) < result then -1
      else getTotalBitsAux version result rest

/-- Models Go `getTotalBits`. -/
def getTotalBits (segs : List QRSegment) (version : Nat) : Int :=
  getTotalBitsAux version 0 segs

/-! ### Static tables (package.go) -/

/-- Models the Go `eccCodeWordsPerBlock` table (index 0 is the `-1` padding
entry).  Row `e ∈ {0,1,2,3}` is Low/Medium/Quartile/High; Go panics on any
other row index, and `encodeSegments` below checks `e ≤ 3` at its first table
access to model that panic. -/
def eccCodeWordsPerBlock (e v : Nat) : Int :=
  (match e with
   | 0 => [-1, 7, 10, 15, 20, 26, 18, 20, 24, 30, 18, 20, 24, 26, 30, 22, 24, 28, 30, 28, 28, 28, 28, 30, 30, 26, 28, 30, 30, 30, 30, 30, 30, 30, 30, 30, 30, 30, 30, 30, 30]
   | 1 => [-1, 10, 16, 26, 18, 24, 16, 18, 22, 22, 26, 30, 22, 22, 24, 24, 28, 28, 26, 26, 26, 26, 28, 28, 28, 28, 28, 28, 28, 28, 28, 28, 28, 28, 28, 28, 28, 28, 28, 28, 28]
   | 2 => [-1, 13, 22, 18, 26, 18, 24, 18, 22, 20, 24, 28, 26, 24, 20, 30, 24, 28, 28, 26, 30, 28, 30, 30, 30, 30, 28, 30, 30, 30, 30, 30, 30, 30, 30, 30, 30, 30, 30, 30, 30]
   | _ => [-1, 17, 28, 22, 16, 22, 28, 26, 26, 24, 28, 24, 28, 22, 24, 24, 30, 28, 28, 26, 28, 30, 24, 30, 30, 30, 30, 30, 30, 30, 30, 30, 30, 30, 30, 30, 30, 30, 30, 30, 30]).getD v (-1)

/-- Models the Go `numErrorCorrectionBlocks` table (index 0 is the `-1`
padding entry). -/
def numErrorCorrectionBlocks (e v : Nat) : Int :=
  (match e with
   | 0 => [-1, 1, 1, 1, 1, 1, 2, 2, 2, 2, 4, 4, 4, 4, 4, 6, 6, 6, 6, 7, 8, 8, 9, 9, 10, 12, 12, 12, 13, 14, 15, 16, 17, 18, 19, 19, 20, 21, 22, 24, 25]
   | 1 => [-1, 1, 1, 1, 2, 2, 4, 4, 4, 5, 5, 5, 8, 9, 9, 10, 10, 11, 13, 14, 16, 17, 17, 18, 20, 21, 23, 25, 26, 28, 29, 31, 33, 35, 37, 38, 40, 43, 45, 47, 49]
   | 2 => [-1, 1, 1, 2, 2, 4, 4, 6, 6, 8, 8, 8, 10, 12, 16, 12, 17, 16, 18, 21, 20, 23, 23, 25, 27, 29, 34, 34, 35, 38, 40, 43, 45, 48, 51, 53, 56, 59, 62, 65, 68]
   | _ => [-1, 1, 1, 2, 4, 4, 4, 5, 6, 8, 8, 11, 11, 16, 16, 18, 16, 19, 21, 25, 25, 25, 34, 30, 32, 35, 37, 40, 42, 45, 48, 51, 54, 57, 60, 63, 66, 70, 74, 77, 81]).getD v (-1)

/-- Models the `numRawDataModules` table computed by the Go `init` function:
`(16v+128)v + 64`, minus the alignment-pattern modules for `v ≥ 2` and the
version-information modules for `v ≥ 7`. -/
def numRawDataModules (v : Nat) : Nat :=
  let result := (16 * v + 128) * v + 64
  if v ≥ 2 then
    let numAlign := v / 7 + 2
    let result := result - ((25 * numAlign - 10) * numAlign - 55)
    if v ≥ 7 then result - 36 else result
  else result

/-- Models the `numDataCodewords` table computed by the Go `init` function:
`numRawDataModules[v]/8 - eccCodeWordsPerBlock[e][v]*numErrorCorrectionBlocks[e][v]`. -/
def numDataCodewords (e v : Nat) : Int :=
  ((numRawDataModules v / 8 : Nat) : Int) - eccCodeWordsPerBlock e v * numErrorCorrectionBlocks e v

/-! ### Segment constructors (qrsegment.go)

Strings are modelled as lists of character codes (`Nat`). -/

/-- Membership test for the Go regexp `^[0-9]*$` on one character. -/
def isNumericChar (c : Nat) : Bool := 48 ≤ c && c ≤ 57

/-- Models the Go regexp `numericRegexp` matching a whole string. -/
def isNumericString (s : List Nat) : Bool := s.all isNumericChar

/-- Character codes of the Go `alphanumericCharset`
`"0123456789ABCDEFGHIJKLMNOPQRSTUVWXYZ $%*+-./:"`. -/
def alphanumericCharset : List Nat :=
  [48, 49, 50, 51, 52, 53, 54, 55, 56, 57,
   65, 66, 67, 68, 69, 70, 71, 72, 73, 74, 75, 76, 77, 78, 79, 80, 81, 82,
   83, 84, 85, 86, 87, 88, 89, 90,
   32, 36, 37, 42, 43, 45, 46, 47, 58]

/-- Models the Go regexp `alphanumericRegexp` (same character set as
`alphanumericCharset`) matching a whole string. -/
def isAlphanumericString (s : List Nat) : Bool := s.all (alphanumericCharset.contains ·)

/-- Models Go `strings.Index(alphanumericCharset, c)` for a single character
that occurs in the charset. -/
def charsetIndex (c : Nat) : Nat := alphanumericCharset.indexOf c

/-- Models Go `strconv.Atoi` on a digit-only string (used by `MakeNumeric`
after the regexp check). -/
def digitsVal (s : List Nat) : Nat := s.foldl (fun a c => a * 10 + (c - 48)) 0

/-- Models the packing loop of Go `MakeNumeric`: take `n = min(remaining, 3)`
digits and append their value in `n*3+1` bits. -/
def makeNumericBits : List Nat → List Nat
  | [] => []
  | [a] => appendBitsList (digitsVal [a]) 4
  | [a, b] => appendBitsList (digitsVal [a, b]) 7
  | a :: b :: c :: t => appendBitsList (digitsVal [a, b, c]) 10 ++ makeNumericBits t

/-- Models Go `MakeNumeric`; `none` models the Go panic on a non-digit
character. -/
def MakeNumeric (digits : List Nat) : Option QRSegment :=
  if isNumericString digits then
    some ⟨Numeric, digits.length, makeNumericBits digits⟩
  else none

/-- Models the packing loop of Go `MakeAlphanumeric`: pairs as 11-bit base-45
values, a trailing single character as 6 bits. -/
def makeAlphanumericBits : List Nat → List Nat
  | [] => []
  | [a] => appendBitsList (charsetIndex a) 6
  | a :: b :: t => appendBitsList (charsetIndex a * 45 + charsetIndex b) 11 ++ makeAlphanumericBits t

/-- Models Go `MakeAlphanumeric`; `none` models the Go panic on a character
outside the 45-character alphabet. -/
def MakeAlphanumeric (text : List Nat) : Option QRSegment :=
  if isAlphanumericString text then
    some ⟨Alphanumeric, text.length, makeAlphanumericBits text⟩
  else none

/-- Models Go `MakeBytes` (each byte as 8 bits; inputs are Go bytes, so every
entry is below 256, within the `appendBits` contract). -/
def MakeBytes (data : List Nat) : QRSegment :=
  ⟨Byte, data.length, (data.map (fun b => appendBitsList b 8)).flatten⟩

/-- Models Go `MakeECI`; `none` models the returned range error for
`assignValue ≥ 1_000_000`.  The Go parameter is an `int` and a negative value
would panic inside `appendBits`; the claim and this model take it
nonnegative. -/
def MakeECI (assignValue : Nat) : Option QRSegment :=
  if assignValue < 1 <<< 7 then
    some ⟨ECI, 0, appendBitsList assignValue 8⟩
  else if assignValue < 1 <<< 14 then
    some ⟨ECI, 0, appendBitsList 2 2 ++ appendBitsList assignValue 14⟩
  else if assignValue < 1000000 then
    some ⟨ECI, 0, appendBitsList 6 3 ++ appendBitsList assignValue 21⟩
  else none

/-- Models Go `MakeSegments`.  After the regexp guards the inner
`MakeNumeric`/`MakeAlphanumeric` calls cannot panic, so their `Option`
results are flattened with `toList`. -/
def MakeSegments (text : List Nat) : List QRSegment :=
  if text.length = 0 then []
  else if isNumericString text then (MakeNumeric text).toList
  else if isAlphanumericString text then (MakeAlphanumeric text).toList
  else [MakeBytes text]

/-! ### Alignment pattern positions (part of the QR-code drawing code) -/

/-- Step between alignment positions computed by Go
`getAlignmentPatternPositions` (version 32 is special-cased to 26). -/
def alignmentStep (version : Nat) : Nat :=
  if version = 32 then 26
  else (version * 4 + (version / 7 + 2) * 2 + 1) / ((version / 7 + 2) * 2 - 2) * 2

/-- Models Go `getAlignmentPatternPositions`: `result[0] = 6` and, filling the
remaining slots backwards from `version*4+17-7`, `result[i] = (version*4+10) -
(numAlign-1-i)*step`.  For versions in `[1,40]` every position fits in a Go
`byte`, so the `byte(pos)` cast is the identity. -/
def getAlignmentPatternPositions (version : Nat) : List Nat :=
  if version = 1 then []
  else
    let numAlign := version / 7 + 2
    let step := alignmentStep version
    6 :: (List.range (numAlign - 1)).map
      (fun j => (version * 4 + 17 - 7) - (numAlign - 2 - j) * step)

/-! ### Reed–Solomon arithmetic (GF(256) with reduction polynomial 0x11D) -/

/-- One iteration of the Russian-peasant loop in Go `reedSolomonMultiply`. -/
def rsMultStep (x y z i : Nat) : Nat :=
  let z := (z <<< 1) ^^^ ((z >>> 7) * 0x11D)
  z ^^^ (((y >>> i) &&& 1) * x)

/-- Models Go `reedSolomonMultiply`: the loop runs `i = 7, 6, …, 0` and the
result is cast to `byte` (`% 256`; a no-op when both inputs are below 256). -/
def reedSolomonMultiply (x y : Nat) : Nat :=
  (List.foldl (rsMultStep x y) 0 [7, 6, 5, 4, 3, 2, 1, 0]) % 256

/-- Inner loop of Go `reedSolomonComputeDivisor`: multiply the running product
by `(x - root)`.  Position `j` becomes `result[j]*root ^ result[j+1]` (the
last position just `result[j]*root`); the Go loop reads `result[j+1]` before
iteration `j+1` overwrites it, i.e. the old value, as here. -/
def rsDivisorStep (root : Nat) : List Nat → List Nat
  | [] => []
  | [a] => [reedSolomonMultiply a root]
  | a :: b :: t => (reedSolomonMultiply a root ^^^ b) :: rsDivisorStep root (b :: t)

/-- Outer loop of Go `reedSolomonComputeDivisor`: `degree` rounds with the
root advancing by a field multiplication by `0x02`. -/
def rsDivisorLoop : Nat → Nat → List Nat → List Nat
  | 0, _, result => result
  | n + 1, root, result => rsDivisorLoop n (reedSolomonMultiply root 2) (rsDivisorStep root result)

/-- Models Go `reedSolomonComputeDivisor`; `none` models the panic for a
degree outside `[1,255]`.  The initial coefficient array is all zero with a
trailing 1 (the monomial `x^0`). -/
def reedSolomonComputeDivisor (degree : Nat) : Option (List Nat) :=
  if degree < 1 ∨ degree > 255 then none
  else some (rsDivisorLoop degree 1 (List.replicate (degree - 1) 0 ++ [1]))

/-- One step of the division loop in Go `reedSolomonComputeRemainder`:
`factor = b ^ result[0]`, shift the register left by one, then XOR position
`i` with `divisor[i] * factor`.  (With an empty divisor Go would panic on
`result[0]`; every use keeps the divisor nonempty.) -/
def rsRemainderStep (divisor result : List Nat) (b : Nat) : List Nat :=
  let factor := b ^^^ result.headD 0
  List.zipWith (fun r g => r ^^^ reedSolomonMultiply g factor) (result.tail ++ [0]) divisor

/-- Models Go `reedSolomonComputeRemainder`. -/
def reedSolomonComputeRemainder (data divisor : List Nat) : List Nat :=
  data.foldl (rsRemainderStep divisor) (List.replicate divisor.length 0)

/-! ### The QR-code structure and its grids

Go `[][]module` / `[][]bool` grids become lists of rows; `Modules[y][x]`
becomes `gridGet`/`gridSet` with out-of-range reads defaulting (the Go code
only ever indexes inside the allocated `size×size` grids). -/

/-- Models the Go `QRCode` struct.  `ecl` is the error-correction level as
`0,1,2,3` = Low, Medium, Quartile, High; `mask` is the Go `Mask` (an `int`,
`-1` is the auto-select sentinel). -/
structure QRCodeM where
  version : Nat
  size : Nat
  ecl : Nat
  mask : Int
  modules : List (List Nat)
  isFunction : List (List Bool)
deriving Repr

/-- Read `g[y][x]` with default (Go only indexes in range). -/
def gridGet (g : List (List Nat)) (y x : Nat) : Nat := (g.getD y []).getD x 0

/-- Read `g[y][x]` of the boolean flag grid. -/
def gridGetB (g : List (List Bool)) (y x : Nat) : Bool := (g.getD y []).getD x false

/-- Write `g[y][x] = v` (no-op out of range, where Go would panic; the code
only writes in range). -/
def gridSet (g : List (List α)) (y x : Nat) (v : α) : List (List α) :=
  g.set y ((g.getD y []).set x v)

/-- Models Go `setFunctionModule(x, y, isBlack)`: sets `Modules[y][x]` and
marks `IsFunction[y][x]`. -/
def setFunctionModule (q : QRCodeM) (x y : Nat) (isBlack : Bool) : QRCodeM :=
  { q with modules := gridSet q.modules y x (bToModule isBlack),
           isFunction := gridSet q.isFunction y x true }

/-- Apply a list of `(x, y, isBlack)` assignments by `setFunctionModule`, in
order. -/
def applyAssignments (q : QRCodeM) (l : List (Nat × Nat × Bool)) : QRCodeM :=
  l.foldl (fun q a => setFunctionModule q a.1 a.2.1 a.2.2) q

/-! ### Masking (applyMask) -/

/-- The eight mask predicates of Go `applyMask`'s `switch`.  Go panics on any
other mask value; callers establish `0 ≤ mask ≤ 7` before the call, so the
default branch here is never relied upon. -/
def maskInvert (mask : Int) (x y : Nat) : Bool :=
  if mask = 0 then (x + y) % 2 == 0
  else if mask = 1 then y % 2 == 0
  else if mask = 2 then x % 3 == 0
  else if mask = 3 then (x + y) % 3 == 0
  else if mask = 4 then (x / 3 + y / 2) % 2 == 0
  else if mask = 5 then (x * y) % 2 + (x * y) % 3 == 0
  else if mask = 6 then ((x * y) % 2 + (x * y) % 3) % 2 == 0
  else if mask = 7 then ((x + y) % 2 + (x * y) % 3) % 2 == 0
  else false

/-- Map a function of the column index over one row. -/
def mapRowIdx (f : Nat → α → α) : Nat → List α → List α
  | _, [] => []
  | x, a :: t => f x a :: mapRowIdx f (x + 1) t

/-- Map a function of both indices over a whole grid. -/
def mapGridIdx (f : Nat → Nat → α → α) : Nat → List (List α) → List (List α)
  | _, [] => []
  | y, row :: rows => mapRowIdx (f y) 0 row :: mapGridIdx f (y + 1) rows

/-- Models Go `applyMask`: XOR every non-function cell with its mask bit.
The Go loops run over `y, x ∈ [0, size)` of the `size×size` grids; the
indexed grid map performs the same per-cell update on every stored cell. -/
def applyMask (q : QRCodeM) (mask : Int) : QRCodeM :=
  let f := fun y x m => m ^^^ bToI (maskInvert mask x y && !(gridGetB q.isFunction y x))
  { q with modules := mapGridIdx f 0 q.modules }

/-! ### Format and version information -/

/-- Models Go `ECL.formatBits`; `none` models the panic on an unknown
level. -/
def formatBits : Nat → Option Nat
  | 0 => some 1
  | 1 => some 0
  | 2 => some 3
  | 3 => some 2
  | _ => none

/-- The 10-round BCH remainder loop of Go `drawFormatBits`. -/
def formatRem (data : Nat) : Nat :=
  (List.range 10).foldl (fun rem _ => (rem <<< 1) ^^^ ((rem >>> 9) * 0x537)) data

/-- The `(x, y, isBlack)` writes of Go `drawFormatBits`, in program order:
first copy around the top-left finder, second copy split along the bottom-left
and top-right edges, then the always-black module at `(8, size-8)`. -/
def formatAssignments (bits : Nat) (size : Nat) : List (Nat × Nat × Bool) :=
  ((List.range 6).map (fun i => (8, i, getBitAsBool bits i)))
  ++ [(8, 7, getBitAsBool bits 6), (8, 8, getBitAsBool bits 7), (7, 8, getBitAsBool bits 8)]
  ++ ((List.range 6).map (fun k => (14 - (9 + k), 8, getBitAsBool bits (9 + k))))
  ++ ((List.range 8).map (fun i => (size - 1 - i, 8, getBitAsBool bits i)))
  ++ ((List.range 7).map (fun k => (8, size - 15 + (8 + k), getBitAsBool bits (8 + k))))
  ++ [(8, size - 8, true)]

/-- Models Go `drawFormatBits`; `none` models the panics (unknown level, or
the `bits>>15 != 0` self-check). -/
def drawFormatBits (q : QRCodeM) (mask : Nat) : Option QRCodeM := do
  let fb ← formatBits q.ecl
  let data := fb <<< 3 ||| mask
  let bits := ((data <<< 10) ||| formatRem data) ^^^ 0x5412
  if bits >>> 15 ≠ 0 then none
  else some (applyAssignments q (formatAssignments bits q.size))

/-- Models Go `drawVersion`; `none` models the `bits>>18 != 0` self-check
panic. -/
def drawVersion (q : QRCodeM) : Option QRCodeM :=
  if q.version < 7 then some q
  else
    let rem := (List.range 12).foldl (fun rem _ => (rem <<< 1) ^^^ ((rem >>> 11) * 0x1F25)) q.version
    let bits := (q.version <<< 12) ||| rem
    if bits >>> 18 ≠ 0 then none
    else some ((List.range 18).foldl (fun q i =>
      let bit := getBitAsBool bits i
      let a := q.size - 11 + i % 3
      let b := i / 3
      setFunctionModule (setFunctionModule q a b bit) b a bit) q)

/-! ### Fixed patterns -/

/-- Distance `|a - b|` on naturals (Go computes `abs` on ints). -/
def natAbsDiff (a b : Nat) : Nat := max (a - b) (b - a)

/-- Models Go `drawAlignmentPattern`: a 5×5 pattern centred at `(x, y)`.  The
offsets `dx, dy ∈ [-2,2]` are folded as `0..4` minus 2; centres are at
positions ≥ 6 so the subtractions cannot underflow. -/
def drawAlignmentPattern (q : QRCodeM) (x y : Nat) : QRCodeM :=
  (List.range 5).foldl (fun q dy =>
    (List.range 5).foldl (fun q dx =>
      setFunctionModule q (x + dx - 2) (y + dy - 2)
        (max (natAbsDiff dx 2) (natAbsDiff dy 2) != 1)) q) q

/-- Models Go `drawFinderPattern`: a 9×9 pattern (with separator) centred at
`(x, y)`, clipped to the grid. -/
def drawFinderPattern (q : QRCodeM) (x y : Nat) : QRCodeM :=
  (List.range 9).foldl (fun q dyi =>
    (List.range 9).foldl (fun q dxi =>
      let dist := max (natAbsDiff dxi 4) (natAbsDiff dyi 4)
      let xx : Int := (x : Int) + dxi - 4
      let yy : Int := (y : Int) + dyi - 4
      if 0 ≤ xx ∧ xx < (q.size : Int) ∧ 0 ≤ yy ∧ yy < (q.size : Int) then
        setFunctionModule q xx.toNat yy.toNat (dist != 2 && dist != 4)
      else q) q) q

/-- Models Go `drawFunctionPatterns`: timing patterns, the three finder
patterns, the alignment patterns (skipping the three finder corners), the
mask-0 format bits and the version information.  Go reads the
`alignmentPatternPositions` table, which `init` fills with
`getAlignmentPatternPositions(v)` for `v ∈ [1,40]`. -/
def drawFunctionPatterns (q : QRCodeM) : Option QRCodeM :=
  let q := (List.range q.size).foldl (fun q i =>
    setFunctionModule (setFunctionModule q 6 i (i % 2 == 0)) i 6 (i % 2 == 0)) q
  let q := drawFinderPattern q 3 3
  let q := drawFinderPattern q (q.size - 4) 3
  let q := drawFinderPattern q 3 (q.size - 4)
  let alignPatPos := getAlignmentPatternPositions q.version
  let numAlign := alignPatPos.length
  let q := (List.range numAlign).foldl (fun q i =>
    (List.range numAlign).foldl (fun q j =>
      if (i = 0 ∧ j = 0) ∨ (i = 0 ∧ j = numAlign - 1) ∨ (i = numAlign - 1 ∧ j = 0) then q
      else drawAlignmentPattern q (alignPatPos.getD i 0) (alignPatPos.getD j 0)) q) q
  (drawFormatBits q 0).bind drawVersion

/-! ### Penalty scoring -/

def penaltyN1 : Int := 3

def penaltyN2 : Int := 3

def penaltyN3 : Int := 40

def penaltyN4 : Int := 10

/-- Models Go `finderPenaltyAddHistory`: push the (border-adjusted) run length
to the front of the 7-entry history. -/
def finderPenaltyAddHistory (size currentRunLength : Nat) (runHistory : List Nat) : List Nat :=
  (if runHistory.headD 0 = 0 then currentRunLength + size else currentRunLength)
    :: runHistory.take 6

/-- Models Go `finderPenaltyCountPatterns`; `none` models the
`n > size*3` self-check panic. -/
def finderPenaltyCountPatterns (size : Nat) (h : List Nat) : Option Nat :=
  let n := h.getD 1 0
  if n > size * 3 then none
  else
    let core := decide (0 < n) && (h.getD 2 0 == n) && (h.getD 3 0 == n * 3)
      && (h.getD 4 0 == n) && (h.getD 5 0 == n)
    some (bToI (core && decide (n * 4 ≤ h.getD 0 0) && decide (n ≤ h.getD 6 0))
      + bToI (core && decide (n * 4 ≤ h.getD 6 0) && decide (n ≤ h.getD 0 0)))

/-- Models Go `finderPenaltyTerminateAndCount`. -/
def finderPenaltyTerminateAndCount (size runColor runLength : Nat) (h : List Nat) : Option Nat :=
  let st := if runColor = 1 then (0, finderPenaltyAddHistory size runLength h) else (runLength, h)
  finderPenaltyCountPatterns size (finderPenaltyAddHistory size (st.1 + size) st.2)

/-- One cell of the run scan shared by the row and column passes of Go
`getPenaltyScore`; the state is `(result, runColor, runLength, history)`. -/
def lineStep (size : Nat) (st : Int × Nat × Nat × List Nat) (c : Nat) :
    Option (Int × Nat × Nat × List Nat) :=
  let (result, runColor, run, hist) := st
  if c = runColor then
    let run := run + 1
    let result := if run = 5 then result + penaltyN1
      else if run > 5 then result + 1 else result
    some (result, runColor, run, hist)
  else
    let hist := finderPenaltyAddHistory size run hist
    if runColor = 0 then do
      let cnt ← finderPenaltyCountPatterns size hist
      some (result + cnt * penaltyN3, c, 1, hist)
    else some (result, c, 1, hist)

/-- One full row/column pass of Go `getPenaltyScore` (rules 1 and 3 for a
single line), including the line-end termination. -/
def scanLine (size : Nat) (cells : List Nat) : Option Int := do
  let st ← cells.foldlM (lineStep size) ((0 : Int), 0, 0, List.replicate 7 0)
  let cnt ← finderPenaltyTerminateAndCount size st.2.1 st.2.2.1 st.2.2.2
  some (st.1 + cnt * penaltyN3)

/-- Models Go `getPenaltyScore`.  Rule 4's `k` is computed in `Int` exactly as
in Go (the comment in the source notes `black/total` can never be exactly 1/2
because the size is odd, so `k ≥ 0` there). -/
def getPenaltyScore (q : QRCodeM) : Option Int := do
  let rows ← (List.range q.size).foldlM (fun (acc : Int) y => do
    let s ← scanLine q.size ((List.range q.size).map (fun x => gridGet q.modules y x))
    pure (acc + s)) 0
  let cols ← (List.range q.size).foldlM (fun (acc : Int) x => do
    let s ← scanLine q.size ((List.range q.size).map (fun y => gridGet q.modules y x))
    pure (acc + s)) rows
  let blocks := (List.range (q.size - 1)).foldl (fun (acc : Int) y =>
    (List.range (q.size - 1)).foldl (fun acc x =>
      let color := gridGet q.modules y x
      if color = gridGet q.modules y (x + 1) ∧ color = gridGet q.modules (y + 1) x ∧
          color = gridGet q.modules (y + 1) (x + 1) then acc + penaltyN2
      else acc) acc) cols
  let black := q.modules.foldl (fun acc row =>
    row.foldl (fun (acc : Int) c => if c = 1 then acc + 1 else acc) acc) 0
  let total : Int := (q.size : Int) * q.size
  let k := ((black * 20 - total * 10).natAbs + total - 1) / total - 1
  some (blocks + k * penaltyN4)

/-! ### Mask selection -/

/-- The auto-selection loop of Go `handleConstructorMasking` over a list of
candidate masks; the state carries the mutated code, the best mask so far and
the minimum penalty so far (initially `-1` and `math.MaxInt32`). -/
def maskLoop : List Nat → QRCodeM → Int → Int → Option (QRCodeM × Int × Int)
  | [], q, mask, minPenalty => some (q, mask, minPenalty)
  | i :: rest, q, mask, minPenalty => do
    let q2 ← drawFormatBits (applyMask q i) i
    let penalty ← getPenaltyScore q2
    let best := if penalty < minPenalty then ((i : Int), penalty) else (mask, minPenalty)
    maskLoop rest (applyMask q2 i) best.1 best.2

/-- Models Go `handleConstructorMasking`: on the `-1` sentinel run the
auto-selection loop, then check the mask range (`none` models the panic),
apply the final mask and redraw its format bits.  Returns the chosen mask and
the finished code. -/
def handleConstructorMasking (q : QRCodeM) (mask : Int) : Option (Int × QRCodeM) := do
  let st ← if mask = -1 then do
      let r ← maskLoop [0, 1, 2, 3, 4, 5, 6, 7] q (-1) 2147483647
      pure (r.1, r.2.1)
    else pure (q, mask)
  let (q, mask) := st
  if mask < 0 ∨ 7 < mask then none
  else do
    let q ← drawFormatBits (applyMask q mask) mask.toNat
    some (mask, q)

/-! ### ECC interleaving and codeword placement -/

/-- Models Go `addECCAndInterleave`; `none` models the length-check panic and
a missing Reed–Solomon divisor.  For every valid `(ecl, version)` the table
entries are positive, so the `toNat` casts and the divisions are exact. -/
def addECCAndInterleave (q : QRCodeM) (data : List Nat) : Option (List Nat) := do
  if (data.length : Int) ≠ numDataCodewords q.ecl q.version then none
  else do
    let numBlocks := (numErrorCorrectionBlocks q.ecl q.version).toNat
    let blockECCLen := (eccCodeWordsPerBlock q.ecl q.version).toNat
    let rawCodeWords := numRawDataModules q.version / 8
    let numShortBlocks := numBlocks - rawCodeWords % numBlocks
    let shortBlockLen := rawCodeWords / numBlocks
    let rsDiv ← reedSolomonComputeDivisor blockECCLen
    let blocks := ((List.range numBlocks).foldl (fun (acc : List (List Nat) × Nat) i =>
      let datLen := shortBlockLen - blockECCLen + bToI (decide (i ≥ numShortBlocks))
      let dat := (data.drop acc.2).take datLen
      let ecc := reedSolomonComputeRemainder dat rsDiv
      let block := dat ++ List.replicate (shortBlockLen + 1 - datLen - ecc.length) 0 ++ ecc
      (acc.1 ++ [block], acc.2 + datLen)) ([], 0)).1
    some (((List.range (shortBlockLen + 1)).map (fun i =>
      (List.range numBlocks).filterMap (fun j =>
        if i ≠ shortBlockLen - blockECCLen ∨ j ≥ numShortBlocks then
          some ((blocks.getD j []).getD i 0)
        else none))).flatten)

/-- The sequence of right-column indices visited by the zig-zag scan of Go
`drawCodewords` (`right = size-1, size-3, …` while `right ≥ 1`, with
`right == 6` replaced by 5).  The first argument is structural-recursion fuel;
the caller passes `size`, which exceeds the iteration count, so the
fuel-exhausted branch is unreachable. -/
def rightsFrom : Nat → Nat → List Nat
  | _, 0 => []
  | 0, _ => []
  | fuel + 1, right =>
    if right = 6 then 5 :: rightsFrom fuel 3
    else right :: rightsFrom fuel (right - 2)

/-- Models Go `drawCodewords`: place the codeword bits MSB-first on the
non-function cells in zig-zag order; `none` models the two length-check
panics. -/
def drawCodewords (q : QRCodeM) (data : List Nat) : Option QRCodeM :=
  if data.length ≠ numRawDataModules q.version / 8 then none
  else
    let cells := ((rightsFrom q.size (q.size - 1)).map (fun right =>
      ((List.range q.size).map (fun vert =>
        [0, 1].map (fun j =>
          let x := right - j
          let y := if (right + 1) &&& 2 == 0 then q.size - 1 - vert else vert
          (y, x)))).flatten)).flatten
    let st := cells.foldl (fun (st : List (List Nat) × Nat) c =>
      if !gridGetB q.isFunction c.1 c.2 ∧ st.2 < data.length * 8 then
        (gridSet st.1 c.1 c.2 (getBit (data.getD (st.2 >>> 3) 0) (7 - (st.2 &&& 7))), st.2 + 1)
      else st) (q.modules, 0)
    if st.2 ≠ data.length * 8 then none
    else some { q with modules := st.1 }

/-! ### The segment encoder (segmentencoder.go) and EncodeSegments -/

/-- Models the Go `segmentEncoder` options struct. -/
structure segmentEncoder where
  boostECL : Bool
  mask : Int
  maxVersion : Nat
  minVersion : Nat
deriving DecidableEq, Repr

/-- The defaults set at the top of Go `EncodeSegments`. -/
def defaultSegmentEncoder : segmentEncoder :=
  { boostECL := true, mask := -1, maxVersion := 40, minVersion := 1 }

/-- Models Go `WithAutoMask`. -/
def WithAutoMask (s : segmentEncoder) : segmentEncoder := { s with mask := -1 }

/-- Models Go `WithBoostECL`. -/
def WithBoostECL (boost : Bool) (s : segmentEncoder) : segmentEncoder :=
  { s with boostECL := boost }

/-- Models Go `WithMask`. -/
def WithMask (mask : Int) (s : segmentEncoder) : segmentEncoder := { s with mask := mask }

/-- Models Go `WithMaxVersion`.  The Go source assigns `s.minVersion = version`
in its body (it never touches `maxVersion`), and this embedding reproduces
that assignment. -/
def WithMaxVersion (version : Nat) (s : segmentEncoder) : segmentEncoder :=
  { s with minVersion := version }

/-- Models Go `WithMinVersion`. -/
def WithMinVersion (version : Nat) (s : segmentEncoder) : segmentEncoder :=
  { s with minVersion := version }

/-- Fold the functional options over the defaults, as the Go loop
`for _, o := range options { o(&s) }` does. -/
def applyOptions (options : List (segmentEncoder → segmentEncoder)) : segmentEncoder :=
  options.foldl (fun s o => o s) defaultSegmentEncoder

/-- The error results of Go `EncodeSegments`; `panicked` stands for any Go
`panic` reached during encoding (as opposed to a returned `error`). -/
inductive EncodeError
  | invalidSegmentVersions
  | maskValueOutOfRange
  | dataLongerThanCapacity (dataUsedBits dataCapacityBits : Int)
  | dataTooLong
  | panicked
deriving DecidableEq, Repr

/-- Models the version-search loop of Go `EncodeSegments`: starting from the
package constant `MinVersion = 1`, accept the first version whose capacity at
`ecl` holds `getTotalBits`, and fail after the package constant
`MaxVersion = 40`.  (The loop reads the constants, not the caller's
`s.minVersion`/`s.maxVersion`.)  The first `Nat` is structural-recursion fuel;
with fuel ≥ `40 - version` (the caller passes 40 at version 1) the
fuel-exhausted branch is unreachable because the `version ≥ 40` test fires
first. -/
def findVersionLoop (segs : List QRSegment) (ecl : Nat) :
    Nat → Nat → Except EncodeError (Nat × Int)
  | fuel, version =>
    let dataCapacityBits := numDataCodewords ecl version * 8
    let dataUsedBits := getTotalBits segs version
    if dataUsedBits ≠ -1 ∧ dataUsedBits ≤ dataCapacityBits then .ok (version, dataUsedBits)
    else if version ≥ 40 then
      if dataUsedBits ≠ -1 then .error (.dataLongerThanCapacity dataUsedBits dataCapacityBits)
      else .error .dataTooLong
    else match fuel with
      | 0 => .error .dataTooLong
      | fuel + 1 => findVersionLoop segs ecl fuel (version + 1)

/-- Models the ECL-boosting loop of Go `EncodeSegments`: scan Medium,
Quartile, High in order and keep the last level that still fits. -/
def boostEcl (s : segmentEncoder) (dataUsedBits : Int) (version : Nat) (ecl : Nat) : Nat :=
  [1, 2, 3].foldl (fun ecl newEcl =>
    if s.boostECL ∧ dataUsedBits ≤ numDataCodewords newEcl version * 8 then newEcl
    else ecl) ecl

/-- The byte-padding loop of Go `EncodeSegments` (`0xEC`/`0x11` alternating).
The first argument is structural-recursion fuel; the caller passes the
capacity in bits, which exceeds the number of padding bytes, so the
fuel-exhausted branch is unreachable. -/
def padLoop : Nat → Nat → List Nat → Nat → List Nat
  | 0, _, bb, _ => bb
  | fuel + 1, padByte, bb, capBits =>
    if bb.length < capBits then
      padLoop fuel (padByte ^^^ (0xec ^^^ 0x11)) (bb ++ appendBitsList padByte 8) capBits
    else bb

/-- Models the big-endian bit-packing loop of Go `EncodeSegments`
(`dataCodeWords[i>>3] |= bb[i] << (7 - i&7)`); the bit count is a multiple of
8 at this point. -/
def packBytes : List Nat → List Nat
  | b0 :: b1 :: b2 :: b3 :: b4 :: b5 :: b6 :: b7 :: rest =>
    ((((((((b0 <<< 1 ||| b1) <<< 1 ||| b2) <<< 1 ||| b3) <<< 1 ||| b4) <<< 1 ||| b5)
      <<< 1 ||| b6) <<< 1) ||| b7) :: packBytes rest
  | _ => []

/-- The segment-concatenation loop of Go `EncodeSegments`: 4-bit mode
indicator, character-count field, payload bits, per segment in order. -/
def assembledBits (segs : List QRSegment) (version : Nat) : List Nat :=
  (segs.map (fun seg =>
    appendBitsList seg.mode.modeBits 4
    ++ appendBitsList seg.numChars (numCharCountBits seg.mode version)
    ++ seg.data)).flatten

/-- The tail of Go `EncodeSegments` after the data codewords are final:
allocate the grids, draw the function patterns, interleave the ECC, place the
codewords and mask.  `maskOpt` is the caller's `s.mask`. -/
def finishSymbol (version ecl : Nat) (maskOpt : Int) (dataCodeWords : List Nat) :
    Except EncodeError QRCodeM :=
  let size := version * 4 + 17
  let qr : QRCodeM :=
    { version := version, size := size, ecl := ecl, mask := 0,
      modules := List.replicate size (List.replicate size 0),
      isFunction := List.replicate size (List.replicate size false) }
  match drawFunctionPatterns qr with
  | none => .error .panicked
  | some qr1 =>
    match addECCAndInterleave qr1 dataCodeWords with
    | none => .error .panicked
    | some allCodeWords =>
      match drawCodewords qr1 allCodeWords with
      | none => .error .panicked
      | some qr3 =>
        match handleConstructorMasking qr3 maskOpt with
        | none => .error .panicked
        | some (m, qr4) => .ok { qr4 with mask := m, isFunction := [] }

/-- The middle of Go `EncodeSegments` after version selection and ECL
boosting (`ecl` is the final, possibly boosted level): assemble the bit
string, check its length, append terminator and padding, pack into bytes and
finish the symbol. -/
def encodeSegmentsBody (segs : List QRSegment) (ecl version : Nat)
    (dataUsedBits : Int) (maskOpt : Int) : Except EncodeError QRCodeM :=
  let bb := assembledBits segs version
  if (bb.length : Int) ≠ dataUsedBits then .error .panicked
  else
    let dataCapacityBits : Int := numDataCodewords ecl version * 8
    if (bb.length : Int) > dataCapacityBits then .error .panicked
    else
      let bb2 := bb ++ appendBitsList 0 (min 4 (dataCapacityBits - (bb.length : Int)).toNat)
      let bb3 := bb2 ++ appendBitsList 0 ((8 - bb2.length % 8) % 8)
      if bb3.length % 8 ≠ 0 then .error .panicked
      else finishSymbol version ecl maskOpt
        (packBytes (padLoop dataCapacityBits.toNat 0xec bb3 dataCapacityBits.toNat))

/-- Models Go `EncodeSegments` end to end: option processing, validation,
version search, ECL boosting, bit assembly, padding, packing, pattern
drawing, ECC interleaving, codeword placement and masking.  Go `error`
returns become the named `EncodeError` values; Go panics become
`.panicked`. -/
def encodeSegments (segs : List QRSegment) (ecl : Nat)
    (options : List (segmentEncoder → segmentEncoder)) : Except EncodeError QRCodeM :=
  let s := applyOptions options
  if s.minVersion < 1 ∨ 40 < s.maxVersion ∨ s.maxVersion < s.minVersion then
    .error .invalidSegmentVersions
  else if s.mask < -1 ∨ s.mask > 7 then .error .maskValueOutOfRange
  else if 4 ≤ ecl then .error .panicked
  else match findVersionLoop segs ecl 40 1 with
  | .error e => .error e
  | .ok (version, dataUsedBits) =>
    if dataUsedBits = -1 then .error .panicked
    else encodeSegmentsBody segs (boostEcl s dataUsedBits version ecl) version
      dataUsedBits s.mask

/-- Models Go `EncodeText` (text as character codes). -/
def EncodeText (text : List Nat) (ecl : Nat) : Except EncodeError QRCodeM :=
  encodeSegments (MakeSegments text) ecl []

/-! ### Specification-side helper definitions

These are not Go functions; they name concepts used by the theorems below. -/

/-- Per-segment bit cost `4 + characterCountFieldWidth + payloadBitLength`
summed by `getTotalBits`. -/
def segCost (version : Nat) (seg : QRSegment) : Nat :=
  4 + numCharCountBits seg.mode version + seg.data.length

/-- Both grids of a QR code have exactly `size` rows of length `size` (true of
every code the pipeline builds). -/
def Shapes (q : QRCodeM) : Prop :=
  q.modules.length = q.size ∧ (∀ row ∈ q.modules, row.length = q.size) ∧
  q.isFunction.length = q.size ∧ (∀ row ∈ q.isFunction, row.length = q.size)

instance (q : QRCodeM) : Decidable (Shapes q) := by
  unfold Shapes
  infer_instance

/-- Does the assignment list write to cell `(y, x)`? -/
def writesTo (l : List (Nat × Nat × Bool)) (y x : Nat) : Bool :=
  l.any (fun a => a.2.1 == y && a.1 == x)

/-- The cells written by `drawFormatBits` (their coordinates do not depend on
the bit values, so mask 0 is used as representative). -/
def isFmtCell (size y x : Nat) : Bool := writesTo (formatAssignments 0 size) y x

/-- The metadata fields (everything except the two grids) of `q'` agree with
those of `q`; the drawing and masking steps only touch the grids. -/
def MetaEq (q q' : QRCodeM) : Prop :=
  q'.version = q.version ∧ q'.size = q.size ∧ q'.ecl = q.ecl ∧ q'.mask = q.mask

/-- Is the list strictly ascending? -/
def strictAscending : List Nat → Bool
  | [] => true
  | [_] => true
  | a :: b :: t => a < b && strictAscending (b :: t)

/-- Do all consecutive gaps in the list equal `step`? -/
def gapsAre (step : Nat) : List Nat → Bool
  | [] => true
  | [_] => true
  | a :: b :: t => (b == a + step) && gapsAre step (b :: t)

/-- The relation between the symbol `q0` entering the mask-selection loop and
the loop's working state `s`: all metadata and grid shapes agree, the
function-flag grids agree cell by cell, and the module grids agree outside
the format-information cells (which the loop keeps overwriting). -/
def StateEq (q0 s : QRCodeM) : Prop :=
  s.version = q0.version ∧ s.size = q0.size ∧ s.ecl = q0.ecl ∧ s.mask = q0.mask ∧
  s.modules.length = q0.modules.length ∧
  (∀ y, (s.modules.getD y []).length = (q0.modules.getD y []).length) ∧
  s.isFunction.length = q0.isFunction.length ∧
  (∀ y, (s.isFunction.getD y []).length = (q0.isFunction.getD y []).length) ∧
  (∀ y x, isFmtCell q0.size y x = false →
    gridGetB s.isFunction y x = gridGetB q0.isFunction y x) ∧
  (∀ y x, isFmtCell q0.size y x = false → gridGet s.modules y x = gridGet q0.modules y x)

/-- The penalty the spec ascribes to candidate mask `i` on the unmasked
symbol `q`: apply the mask, draw its format bits, score. -/
def penaltySpec (q : QRCodeM) (i : Nat) : Option Int :=
  (drawFormatBits (applyMask q (i : Int)) i).bind getPenaltyScore

/-- The mask-selection fold of `handleConstructorMasking`, but drawing every
penalty from `penaltySpec` on the fixed initial symbol `q0`. -/
def runBest (q0 : QRCodeM) : List Nat → Int → Int → Option (Int × Int)
  | [], best, minPen => some (best, minPen)
  | i :: rest, best, minPen =>
    (penaltySpec q0 i).bind (fun p =>
      if p < minPen then runBest q0 rest (i : Int) p
      else runBest q0 rest best minPen)

/-- The invariant of the best-mask fold after processing the candidate list
`P`: every processed penalty is defined and at least the running minimum `p`,
and the running best `b` is either the `-1`/`MaxInt32` start or the first
processed index attaining `p`. -/
def InvBest (q0 : QRCodeM) (P : List Nat) (b p : Int) : Prop :=
  (∀ j ∈ P, ∃ pj, penaltySpec q0 j = some pj ∧ p ≤ pj) ∧
  ((b = -1 ∧ p = 2147483647) ∨
   (∃ bn : Nat, b = (bn : Int) ∧ bn ∈ P ∧ penaltySpec q0 bn = some p ∧
    (∀ j ∈ P, j < bn → ∀ pj, penaltySpec q0 j = some pj → p < pj)))

/-- A concrete unmasked version-1 symbol (all modules white, every cell a
function cell) used to exercise the mask-selection theorem. -/
def c4wq : QRCodeM :=
  ⟨1, 21, 0, -1, List.replicate 21 (List.replicate 21 0),
    List.replicate 21 (List.replicate 21 true)⟩

/-! ## Lemmas

### Generic list and grid lemmas -/

theorem rowGetD_set_self {α} (l : List α) (i : Nat) (v d : α) (h : i < l.length) :
    (l.set i v).getD i d = v := by
  simp [List.getD_eq_getElem?_getD, List.getElem?_set_self', h]

theorem rowGetD_set_ne {α} (l : List α) (i j : Nat) (v d : α) (h : i ≠ j) :
    (l.set i v).getD j d = l.getD j d := by
  simp [List.getD_eq_getElem?_getD, List.getElem?_set_ne h]

theorem rowGetD_ge {α} (l : List α) (i : Nat) (d : α) (h : l.length ≤ i) :
    l.getD i d = d := by
  simp [List.getD_eq_getElem?_getD, List.getElem?_eq_none h]

theorem rowExt {α} (d : α) (l1 l2 : List α) (hlen : l1.length = l2.length)
    (h : ∀ x, l1.getD x d = l2.getD x d) : l1 = l2 := by
  apply List.ext_getElem hlen
  intro i h1 h2
  have := h i
  rwa [List.getD_eq_getElem l1 d h1, List.getD_eq_getElem l2 d h2] at this

theorem gridSet_length {α} (g : List (List α)) (y x : Nat) (v : α) :
    (gridSet g y x v).length = g.length := by
  simp [gridSet]

theorem gridSet_row_length {α} (g : List (List α)) (y x : Nat) (v : α) (y' : Nat) :
    ((gridSet g y x v).getD y' []).length = (g.getD y' []).length := by
  unfold gridSet
  rcases eq_or_ne y y' with rfl | hne
  · rcases Nat.lt_or_ge y g.length with hy | hy
    · rw [rowGetD_set_self _ _ _ _ hy]
      simp
    · rw [List.set_eq_of_length_le hy]
  · rw [rowGetD_set_ne _ _ _ _ _ hne]

theorem gridGet_set_self (g : List (List Nat)) (y x : Nat) (v : Nat)
    (hy : y < g.length) (hx : x < (g.getD y []).length) :
    gridGet (gridSet g y x v) y x = v := by
  unfold gridGet gridSet
  rw [rowGetD_set_self _ _ _ _ hy, rowGetD_set_self _ _ _ _ hx]

theorem gridGet_set_ne (g : List (List Nat)) (y x y' x' : Nat) (v : Nat)
    (h : ¬(y' = y ∧ x' = x)) :
    gridGet (gridSet g y x v) y' x' = gridGet g y' x' := by
  unfold gridGet gridSet
  rcases eq_or_ne y y' with rfl | hne
  · have hx : x' ≠ x := fun hx => h ⟨rfl, hx⟩
    rcases Nat.lt_or_ge y g.length with hy | hy
    · rw [rowGetD_set_self _ _ _ _ hy, rowGetD_set_ne _ _ _ _ _ (Ne.symm hx)]
    · rw [List.set_eq_of_length_le hy]
  · rw [rowGetD_set_ne _ _ _ _ _ hne]

theorem gridGetB_set_self (g : List (List Bool)) (y x : Nat) (v : Bool)
    (hy : y < g.length) (hx : x < (g.getD y []).length) :
    gridGetB (gridSet g y x v) y x = v := by
  unfold gridGetB gridSet
  rw [rowGetD_set_self _ _ _ _ hy, rowGetD_set_self _ _ _ _ hx]

theorem gridGetB_set_ne (g : List (List Bool)) (y x y' x' : Nat) (v : Bool)
    (h : ¬(y' = y ∧ x' = x)) :
    gridGetB (gridSet g y x v) y' x' = gridGetB g y' x' := by
  unfold gridGetB gridSet
  rcases eq_or_ne y y' with rfl | hne
  · have hx : x' ≠ x := fun hx => h ⟨rfl, hx⟩
    rcases Nat.lt_or_ge y g.length with hy | hy
    · rw [rowGetD_set_self _ _ _ _ hy, rowGetD_set_ne _ _ _ _ _ (Ne.symm hx)]
    · rw [List.set_eq_of_length_le hy]
  · rw [rowGetD_set_ne _ _ _ _ _ hne]

theorem gridExt (g1 g2 : List (List Nat)) (hlen : g1.length = g2.length)
    (hrow : ∀ y, (g1.getD y []).length = (g2.getD y []).length)
    (hcell : ∀ y x, gridGet g1 y x = gridGet g2 y x) : g1 = g2 := by
  apply List.ext_getElem hlen
  intro y hy1 hy2
  have hr1 : g1.getD y [] = g1[y] := List.getD_eq_getElem g1 [] hy1
  have hr2 : g2.getD y [] = g2[y] := List.getD_eq_getElem g2 [] hy2
  apply rowExt 0
  · have := hrow y
    rwa [hr1, hr2] at this
  · intro x
    have := hcell y x
    unfold gridGet at this
    rwa [hr1, hr2] at this

theorem gridExtB (g1 g2 : List (List Bool)) (hlen : g1.length = g2.length)
    (hrow : ∀ y, (g1.getD y []).length = (g2.getD y []).length)
    (hcell : ∀ y x, gridGetB g1 y x = gridGetB g2 y x) : g1 = g2 := by
  apply List.ext_getElem hlen
  intro y hy1 hy2
  have hr1 : g1.getD y [] = g1[y] := List.getD_eq_getElem g1 [] hy1
  have hr2 : g2.getD y [] = g2[y] := List.getD_eq_getElem g2 [] hy2
  apply rowExt false
  · have := hrow y
    rwa [hr1, hr2] at this
  · intro x
    have := hcell y x
    unfold gridGetB at this
    rwa [hr1, hr2] at this

theorem mapRowIdx_length {α} (f : Nat → α → α) : ∀ (l : List α) (x0 : Nat),
    (mapRowIdx f x0 l).length = l.length
  | [], _ => rfl
  | _ :: t, x0 => by simp [mapRowIdx, mapRowIdx_length f t (x0 + 1)]

theorem mapRowIdx_getD {α} (f : Nat → α → α) : ∀ (l : List α) (x0 i : Nat) (d : α),
    i < l.length → (mapRowIdx f x0 l).getD i d = f (x0 + i) (l.getD i d)
  | [], _, i, _, h => absurd h (by simp)
  | a :: t, x0, 0, d, _ => by simp [mapRowIdx]
  | a :: t, x0, i + 1, d, h => by
    have := mapRowIdx_getD f t (x0 + 1) i d (by simpa using h)
    simpa [mapRowIdx, Nat.add_assoc, Nat.add_comm 1 i] using this

theorem mapGridIdx_length {α} (f : Nat → Nat → α → α) : ∀ (g : List (List α)) (y0 : Nat),
    (mapGridIdx f y0 g).length = g.length
  | [], _ => rfl
  | _ :: t, y0 => by simp [mapGridIdx, mapGridIdx_length f t (y0 + 1)]

theorem mapGridIdx_row {α} (f : Nat → Nat → α → α) : ∀ (g : List (List α)) (y0 y : Nat),
    y < g.length → (mapGridIdx f y0 g).getD y [] = mapRowIdx (f (y0 + y)) 0 (g.getD y [])
  | [], _, y, h => absurd h (by simp)
  | r :: t, y0, 0, _ => by simp [mapGridIdx]
  | r :: t, y0, y + 1, h => by
    have := mapGridIdx_row f t (y0 + 1) y (by simpa using h)
    simpa [mapGridIdx, Nat.add_assoc, Nat.add_comm 1 y] using this

theorem mapGridIdx_row_length {α} (f : Nat → Nat → α → α) (g : List (List α)) (y0 y : Nat) :
    ((mapGridIdx f y0 g).getD y []).length = (g.getD y []).length := by
  rcases Nat.lt_or_ge y g.length with hy | hy
  · rw [mapGridIdx_row f g y0 y hy, mapRowIdx_length]
  · rw [rowGetD_ge _ _ _ (by simpa [mapGridIdx_length] using hy), rowGetD_ge _ _ _ hy]

theorem mapGridIdx_cell (f : Nat → Nat → Nat → Nat) (g : List (List Nat)) (y x : Nat)
    (hy : y < g.length) (hx : x < (g.getD y []).length) :
    gridGet (mapGridIdx f 0 g) y x = f y x (gridGet g y x) := by
  unfold gridGet
  rw [mapGridIdx_row f g 0 y hy, mapRowIdx_getD _ _ _ _ _ hx]
  simp

theorem mapGridIdx_cell_oob (f : Nat → Nat → Nat → Nat) (g : List (List Nat)) (y x : Nat)
    (h : ¬(y < g.length ∧ x < (g.getD y []).length)) :
    gridGet (mapGridIdx f 0 g) y x = gridGet g y x := by
  unfold gridGet
  rcases Nat.lt_or_ge y g.length with hy | hy
  · have hx : (g.getD y []).length ≤ x := by
      rcases Nat.lt_or_ge x (g.getD y []).length with hx | hx
      · exact absurd ⟨hy, hx⟩ h
      · exact hx
    rw [mapGridIdx_row f g 0 y hy, rowGetD_ge _ _ _ (by simpa [mapRowIdx_length] using hx),
      rowGetD_ge _ _ _ hx]
  · rw [rowGetD_ge (mapGridIdx f 0 g) y [] (by simpa [mapGridIdx_length] using hy),
      rowGetD_ge g y [] hy]

/-! ### Characterization of applyMask -/

theorem applyMask_isFunction (q : QRCodeM) (m : Int) :
    (applyMask q m).isFunction = q.isFunction := rfl

theorem applyMask_version (q : QRCodeM) (m : Int) : (applyMask q m).version = q.version := rfl

theorem applyMask_ecl (q : QRCodeM) (m : Int) : (applyMask q m).ecl = q.ecl := rfl

theorem applyMask_size (q : QRCodeM) (m : Int) : (applyMask q m).size = q.size := rfl

theorem applyMask_mask (q : QRCodeM) (m : Int) : (applyMask q m).mask = q.mask := rfl

theorem applyMask_modules_length (q : QRCodeM) (m : Int) :
    (applyMask q m).modules.length = q.modules.length :=
  mapGridIdx_length _ q.modules 0

theorem applyMask_row_length (q : QRCodeM) (m : Int) (y : Nat) :
    ((applyMask q m).modules.getD y []).length = (q.modules.getD y []).length :=
  mapGridIdx_row_length _ q.modules 0 y

theorem applyMask_cell (q : QRCodeM) (m : Int) (y x : Nat)
    (hy : y < q.modules.length) (hx : x < (q.modules.getD y []).length) :
    gridGet (applyMask q m).modules y x =
      gridGet q.modules y x ^^^ bToI (maskInvert m x y && !gridGetB q.isFunction y x) := by
  simp only [applyMask]
  exact mapGridIdx_cell _ q.modules y x hy hx

theorem applyMask_cell_oob (q : QRCodeM) (m : Int) (y x : Nat)
    (h : ¬(y < q.modules.length ∧ x < (q.modules.getD y []).length)) :
    gridGet (applyMask q m).modules y x = gridGet q.modules y x := by
  simp only [applyMask]
  exact mapGridIdx_cell_oob _ q.modules y x h

/-- Applying the same mask twice restores every module (the XOR offsets agree
because `applyMask` leaves the `isFunction` grid untouched). -/
theorem applyMask_applyMask (q : QRCodeM) (m : Int) :
    applyMask (applyMask q m) m = q := by
  have h : (applyMask (applyMask q m) m).modules = q.modules := by
    apply gridExt
    · rw [applyMask_modules_length, applyMask_modules_length]
    · intro y
      rw [applyMask_row_length, applyMask_row_length]
    · intro y x
      rcases Classical.em (y < q.modules.length ∧ x < (q.modules.getD y []).length) with h | h
      · rw [applyMask_cell _ m y x (by rw [applyMask_modules_length]; exact h.1)
          (by rw [applyMask_row_length]; exact h.2)]
        rw [applyMask_cell _ m y x h.1 h.2, applyMask_isFunction]
        rw [Nat.xor_assoc, Nat.xor_self, Nat.xor_zero]
      · rw [applyMask_cell_oob _ m y x
          (by rw [applyMask_modules_length, applyMask_row_length]; exact h)]
        exact applyMask_cell_oob _ m y x h
  cases q with
  | mk ver size ecl mask mods isF =>
    simp only [applyMask] at h ⊢
    rw [h]

/-- applyMask never changes a module whose `isFunction` flag is set. -/
theorem applyMask_function_cell (q : QRCodeM) (m : Int) (y x : Nat)
    (h : gridGetB q.isFunction y x = true) :
    gridGet (applyMask q m).modules y x = gridGet q.modules y x := by
  rcases Classical.em (y < q.modules.length ∧ x < (q.modules.getD y []).length) with hin | hin
  · rw [applyMask_cell _ m y x hin.1 hin.2, h]
    simp [bToI]
  · exact applyMask_cell_oob _ m y x hin

/-! ### Claim C5 -/

/-- C5: for every mask value in `[0,7]` and every QRCode whose `Modules` and
`IsFunction` grids are both `Size×Size`, applying the same mask twice leaves
every module unchanged (`applyMask` is self-inverse), and `applyMask` never
changes a cell whose `IsFunction` flag is set. -/
theorem claimC5 (q : QRCodeM) (m : Int) (h0 : 0 ≤ m) (h7 : m ≤ 7)
    (hm1 : q.modules.length = q.size) (hm2 : ∀ row ∈ q.modules, row.length = q.size)
    (hf1 : q.isFunction.length = q.size) (hf2 : ∀ row ∈ q.isFunction, row.length = q.size) :
    applyMask (applyMask q m) m = q ∧
    ∀ y x, gridGetB q.isFunction y x = true →
      gridGet (applyMask q m).modules y x = gridGet q.modules y x :=
  ⟨applyMask_applyMask q m, fun y x h => applyMask_function_cell q m y x h⟩

/-- Witness for C5 at a concrete 2×2 code and mask 3. -/
theorem claimC5_witness :
    ((0 : Int) ≤ 3 ∧ (3 : Int) ≤ 7 ∧
      (⟨1, 2, 0, 0, [[0, 1], [1, 0]], [[true, false], [false, true]]⟩ :
        QRCodeM).modules.length = 2) ∧
    (applyMask (applyMask (⟨1, 2, 0, 0, [[0, 1], [1, 0]], [[true, false], [false, true]]⟩ :
        QRCodeM) 3) 3 =
      ⟨1, 2, 0, 0, [[0, 1], [1, 0]], [[true, false], [false, true]]⟩ ∧
    ∀ y x, gridGetB (⟨1, 2, 0, 0, [[0, 1], [1, 0]], [[true, false], [false, true]]⟩ :
        QRCodeM).isFunction y x = true →
      gridGet (applyMask (⟨1, 2, 0, 0, [[0, 1], [1, 0]], [[true, false], [false, true]]⟩ :
        QRCodeM) 3).modules y x =
      gridGet (⟨1, 2, 0, 0, [[0, 1], [1, 0]], [[true, false], [false, true]]⟩ :
        QRCodeM).modules y x) :=
  ⟨⟨by decide, by decide, by decide⟩,
    claimC5 ⟨1, 2, 0, 0, [[0, 1], [1, 0]], [[true, false], [false, true]]⟩ 3
      (by decide) (by decide) (by decide) (by decide) (by decide) (by decide)⟩

/-! ### Claim C3: Reed–Solomon divisibility -/

theorem reedSolomonMultiply_zero (x : Nat) : reedSolomonMultiply x 0 = 0 := by
  simp [reedSolomonMultiply, rsMultStep]

theorem zipWith_xor_multZero : ∀ (l g : List Nat), l.length = g.length →
    List.zipWith (fun r gi => r ^^^ reedSolomonMultiply gi 0) l g = l
  | [], [], _ => rfl
  | [], _ :: _, h => absurd h (by simp)
  | _ :: _, [], h => absurd h (by simp)
  | a :: l, b :: g, h => by
    rw [List.zipWith_cons_cons, zipWith_xor_multZero l g (by simpa using h),
      reedSolomonMultiply_zero, Nat.xor_zero]

/-- Feeding the register its own leading byte gives a zero factor, so the
division step is a pure left shift. -/
theorem rsRemainderStep_self (g r : List Nat) (h : r.length = g.length) (hne : g ≠ []) :
    rsRemainderStep g r (r.headD 0) = r.tail ++ [0] := by
  unfold rsRemainderStep
  rw [Nat.xor_self]
  apply zipWith_xor_multZero
  have hr : r ≠ [] := by
    intro hr
    rw [hr] at h
    exact hne (List.length_eq_zero.mp h.symm)
  rcases r with _ | ⟨a, t⟩
  · exact absurd rfl hr
  · simpa using h

/-- Consuming the register contents themselves drives the register to zero. -/
theorem rsSelfConsume (g : List Nat) (hne : g ≠ []) :
    ∀ (t : List Nat) (k : Nat), t.length + k = g.length →
      List.foldl (rsRemainderStep g) (t ++ List.replicate k 0) t = List.replicate g.length 0
  | [], k, hk => by
    simp only [List.nil_append, List.foldl_nil]
    rw [show k = g.length by simpa using hk]
  | a :: t, k, hk => by
    rw [List.foldl_cons]
    have hlen : ((a :: t) ++ List.replicate k 0).length = g.length := by
      simp only [List.cons_append, List.length_cons, List.length_append,
        List.length_replicate]
      simp only [List.length_cons] at hk
      omega
    have hstep := rsRemainderStep_self g ((a :: t) ++ List.replicate k 0) hlen hne
    simp only [List.cons_append, List.headD_cons, List.tail_cons] at hstep
    simp only [List.cons_append]
    rw [hstep]
    have hrep : (t ++ List.replicate k 0) ++ [0] = t ++ List.replicate (k + 1) 0 := by
      rw [List.append_assoc]
      congr 1
      exact (List.replicate_succ' k 0).symm
    rw [hrep]
    exact rsSelfConsume g hne t (k + 1)
      (by simp only [List.length_cons] at hk; omega)

theorem rsRemainderStep_length (g r : List Nat) (b : Nat) (h : r.length = g.length) :
    (rsRemainderStep g r b).length = g.length := by
  unfold rsRemainderStep
  rcases r with _ | ⟨a, t⟩
  · simp only [List.length_nil] at h
    simp [List.length_zipWith, ← h]
  · simp only [List.length_cons] at h
    simp [List.length_zipWith, ← h]

theorem rsRemainderFold_length (g : List Nat) :
    ∀ (data r : List Nat), r.length = g.length →
      (List.foldl (rsRemainderStep g) r data).length = g.length
  | [], _, h => h
  | b :: data, r, h =>
    rsRemainderFold_length g data _ (rsRemainderStep_length g r b h)

theorem reedSolomonComputeRemainder_length (data g : List Nat) :
    (reedSolomonComputeRemainder data g).length = g.length :=
  rsRemainderFold_length g data _ (List.length_replicate _ _)

theorem rsDivisorStep_length (root : Nat) : ∀ (l : List Nat),
    (rsDivisorStep root l).length = l.length
  | [] => rfl
  | [_] => rfl
  | _ :: b :: t => by
    simp only [rsDivisorStep, List.length_cons]
    rw [rsDivisorStep_length root (b :: t)]
    rfl

theorem rsDivisorLoop_length : ∀ (n root : Nat) (l : List Nat),
    (rsDivisorLoop n root l).length = l.length
  | 0, _, _ => rfl
  | n + 1, root, l => by
    rw [rsDivisorLoop, rsDivisorLoop_length n _ _, rsDivisorStep_length]

theorem reedSolomonComputeDivisor_length (d : Nat) (g : List Nat)
    (h : reedSolomonComputeDivisor d = some g) : g.length = d ∧ 1 ≤ d ∧ d ≤ 255 := by
  unfold reedSolomonComputeDivisor at h
  split at h
  · exact absurd h (by simp)
  · rename_i hd
    have hg := (Option.some.injEq _ _).mp h
    have hd1 : 1 ≤ d ∧ d ≤ 255 := by omega
    refine ⟨?_, hd1⟩
    rw [← hg, rsDivisorLoop_length]
    simp only [List.length_append, List.length_replicate, List.length_cons,
      List.length_nil]
    omega

/-- C3: for every byte sequence and every degree `d ∈ [1,255]` with generator
`g = reedSolomonComputeDivisor d`, the remainder of `data ++ remainder(data)`
under the same `g` is the all-zero sequence (exact divisibility). -/
theorem claimC3 (d : Nat) (g data : List Nat)
    (hg : reedSolomonComputeDivisor d = some g)
    (hdata : ∀ b ∈ data, b < 256) :
    reedSolomonComputeRemainder (data ++ reedSolomonComputeRemainder data g) g
      = List.replicate d 0 := by
  obtain ⟨hlen, hd1, _⟩ := reedSolomonComputeDivisor_length d g hg
  have hne : g ≠ [] := by
    intro hnil
    rw [hnil] at hlen
    simp only [List.length_nil] at hlen
    omega
  show List.foldl (rsRemainderStep g) (List.replicate g.length 0)
    (data ++ reedSolomonComputeRemainder data g) = List.replicate d 0
  rw [List.foldl_append]
  have hself := rsSelfConsume g hne (reedSolomonComputeRemainder data g) 0
    (by rw [reedSolomonComputeRemainder_length]; omega)
  simp only [List.replicate_zero, List.append_nil] at hself
  rw [show List.foldl (rsRemainderStep g) (List.replicate g.length 0) data
    = reedSolomonComputeRemainder data g from rfl]
  rw [hself, hlen]

/-- Witness for C3 at degree 3 and the two-byte message `[17, 200]`. -/
theorem claimC3_witness :
    (reedSolomonComputeDivisor 3 = some [7, 14, 8] ∧ ∀ b ∈ [17, 200], b < 256) ∧
    reedSolomonComputeRemainder
        ([17, 200] ++ reedSolomonComputeRemainder [17, 200] [7, 14, 8]) [7, 14, 8]
      = List.replicate 3 0 :=
  ⟨⟨by decide, by decide⟩, claimC3 3 [7, 14, 8] [17, 200] (by decide) (by decide)⟩

/-! ### Claim C6: getTotalBits -/

/-- Full characterization of the `getTotalBits` loop for a nonnegative
accumulator within the 32-bit bound. -/
theorem getTotalBitsAux_spec (v : Nat) : ∀ (segs : List QRSegment) (acc : Int),
    0 ≤ acc → acc ≤ 2147483647 →
    getTotalBitsAux v acc segs =
      if (∃ s ∈ segs, (1 <<< numCharCountBits s.mode v) ≤ s.numChars)
          ∨ (2147483647 : Int) < acc + ((segs.map (segCost v)).sum : Nat)
      then -1 else acc + ((segs.map (segCost v)).sum : Nat)
  | [], acc, h0, hM => by
    simp only [getTotalBitsAux, List.map_nil, List.sum_nil, Nat.cast_zero, Int.add_zero]
    rw [if_neg]
    push_neg
    exact ⟨by simp, hM⟩
  | seg :: rest, acc, h0, hM => by
    simp only [getTotalBitsAux]
    by_cases hw : (1 <<< numCharCountBits seg.mode v) ≤ seg.numChars
    · rw [if_pos hw, if_pos (Or.inl ⟨seg, List.mem_cons_self seg rest, hw⟩)]
    · rw [if_neg hw]
      by_cases hover : (2147483647 : Int)
          < acc + ((4 + numCharCountBits seg.mode v + seg.data.length : Nat) : Int)
      · rw [if_pos hover, if_pos]
        right
        simp only [List.map_cons, List.sum_cons, segCost]
        rw [Nat.cast_add]
        omega
      · rw [if_neg hover]
        rw [getTotalBitsAux_spec v rest _ (by omega) (by omega)]
        by_cases hc : (∃ s ∈ rest, (1 <<< numCharCountBits s.mode v) ≤ s.numChars)
            ∨ (2147483647 : Int)
              < (acc + ((4 + numCharCountBits seg.mode v + seg.data.length : Nat) : Int))
                + ((rest.map (segCost v)).sum : Nat)
        · rw [if_pos hc, if_pos]
          rcases hc with h | h
          · rcases h with ⟨s, hs, hh⟩
            exact Or.inl ⟨s, List.mem_cons_of_mem seg hs, hh⟩
          · right
            simp only [List.map_cons, List.sum_cons, segCost]
            rw [Nat.cast_add]
            omega
        · rw [if_neg hc, if_neg]
          · simp only [List.map_cons, List.sum_cons, segCost]
            push_cast
            ring
          · intro hc2
            apply hc
            rcases hc2 with h | h
            · rcases h with ⟨s, hs, hh⟩
              rcases List.mem_cons.mp hs with rfl | hs2
              · exact absurd hh hw
              · exact Or.inl ⟨s, hs2, hh⟩
            · right
              simp only [List.map_cons, List.sum_cons, segCost] at h
              rw [Nat.cast_add] at h
              omega

/-- C6: `getTotalBits` returns the exact sum of `4 + fieldWidth + payload`
over the segments, with field widths drawn from the mode's 3-entry table for
the version ranges 1–9, 10–26, 27–40; it returns the `-1` sentinel exactly
when a segment's character count does not fit its field width or the running
sum exceeds `math.MaxInt32`; and on the empty list it returns 0. -/
theorem claimC6 (v : Nat) (h1 : 1 ≤ v) (h2 : v ≤ 40) (segs : List QRSegment) :
    (getTotalBits segs v = -1 ↔
      (∃ s ∈ segs, (1 <<< numCharCountBits s.mode v) ≤ s.numChars) ∨
        (2147483647 : Int) < ((segs.map (segCost v)).sum : Nat)) ∧
    (getTotalBits segs v ≠ -1 →
      getTotalBits segs v = ((segs.map (segCost v)).sum : Nat)) ∧
    getTotalBits ([] : List QRSegment) v = 0 ∧
    ∀ m : Mode, (v ≤ 9 → numCharCountBits m v = m.nb0) ∧
      (10 ≤ v → v ≤ 26 → numCharCountBits m v = m.nb1) ∧
      (27 ≤ v → numCharCountBits m v = m.nb2) := by
  have hspec := getTotalBitsAux_spec v segs 0 (by omega) (by omega)
  simp only [Int.zero_add] at hspec
  rw [show getTotalBits segs v = getTotalBitsAux v 0 segs from rfl, hspec]
  refine ⟨?_, ?_, rfl, ?_⟩
  · split
    · rename_i hc
      simpa using hc
    · rename_i hc
      constructor
      · intro hv
        have : (0 : Int) ≤ ((segs.map (segCost v)).sum : Nat) := by positivity
        omega
      · intro hv
        exact absurd hv hc
  · split
    · rename_i hc
      intro hv
      exact absurd rfl hv
    · intro _
      rfl
  · intro m
    refine ⟨fun h9 => ?_, fun h10 h26 => ?_, fun h27 => ?_⟩
    · have hd : (v + 7) / 17 = 0 := by omega
      unfold numCharCountBits
      rw [hd]
    · have hd : (v + 7) / 17 = 1 := by omega
      unfold numCharCountBits
      rw [hd]
    · have hd : (v + 7) / 17 = 2 := by omega
      unfold numCharCountBits
      rw [hd]

/-- Witness for C6 at version 1 and a one-segment list. -/
theorem claimC6_witness :
    (1 ≤ 1 ∧ 1 ≤ 40) ∧
    ((getTotalBits [⟨Numeric, 3, [1, 0, 1]⟩] 1 = -1 ↔
      (∃ s ∈ [(⟨Numeric, 3, [1, 0, 1]⟩ : QRSegment)],
        (1 <<< numCharCountBits s.mode 1) ≤ s.numChars) ∨
        (2147483647 : Int) <
          (([(⟨Numeric, 3, [1, 0, 1]⟩ : QRSegment)].map (segCost 1)).sum : Nat)) ∧
    (getTotalBits [⟨Numeric, 3, [1, 0, 1]⟩] 1 ≠ -1 →
      getTotalBits [⟨Numeric, 3, [1, 0, 1]⟩] 1 =
        (([(⟨Numeric, 3, [1, 0, 1]⟩ : QRSegment)].map (segCost 1)).sum : Nat)) ∧
    getTotalBits ([] : List QRSegment) 1 = 0 ∧
    ∀ m : Mode, (1 ≤ 9 → numCharCountBits m 1 = m.nb0) ∧
      (10 ≤ 1 → 1 ≤ 26 → numCharCountBits m 1 = m.nb1) ∧
      (27 ≤ 1 → numCharCountBits m 1 = m.nb2)) :=
  ⟨⟨by decide, by decide⟩,
    claimC6 1 (by decide) (by decide) [⟨Numeric, 3, [1, 0, 1]⟩]⟩

/-! ### Claim C7: MakeNumeric -/

theorem appendBitsList_length (v : Nat) : ∀ n, (appendBitsList v n).length = n
  | 0 => rfl
  | n + 1 => by simp [appendBitsList, appendBitsList_length v n]

theorem makeNumericBits_length : ∀ (l : List Nat),
    (makeNumericBits l).length = 10 * (l.length / 3) +
      (if l.length % 3 = 0 then 0 else if l.length % 3 = 1 then 4 else 7)
  | [] => by simp [makeNumericBits]
  | [_] => by simp [makeNumericBits, appendBitsList_length]
  | [_, _] => by simp [makeNumericBits, appendBitsList_length]
  | _ :: _ :: _ :: t => by
    simp only [makeNumericBits, List.length_append, appendBitsList_length,
      List.length_cons]
    rw [makeNumericBits_length t]
    have h3 : (t.length + 1 + 1 + 1) / 3 = t.length / 3 + 1 := by omega
    have h3b : (t.length + 1 + 1 + 1) % 3 = t.length % 3 := by omega
    simp only [h3, h3b]
    set X := if t.length % 3 = 0 then 0 else if t.length % 3 = 1 then 4 else 7 with hX
    omega

/-- C7: `MakeNumeric` packs digits in groups of 3 into 10-bit fields with a
7-bit field for 2 leftover digits and a 4-bit field for 1, so the payload
length is `10·⌊n/3⌋` plus 0/4/7 bits; in particular the digit string `"9"`
(character code 57) yields `[1,0,0,1]` and `"673"` (codes 54,55,51) yields
`[1,0,1,0,1,0,0,0,0,1]`. -/
theorem claimC7 :
    (∀ (digits : List Nat) (seg : QRSegment), MakeNumeric digits = some seg →
      seg.data.length = 10 * (digits.length / 3) +
        (if digits.length % 3 = 0 then 0 else if digits.length % 3 = 1 then 4 else 7)) ∧
    MakeNumeric [57] = some ⟨Numeric, 1, [1, 0, 0, 1]⟩ ∧
    MakeNumeric [54, 55, 51] = some ⟨Numeric, 3, [1, 0, 1, 0, 1, 0, 0, 0, 0, 1]⟩ := by
  refine ⟨?_, by decide, by decide⟩
  intro digits seg h
  unfold MakeNumeric at h
  split at h
  · have := (Option.some.injEq _ _).mp h
    rw [← this]
    exact makeNumericBits_length digits
  · exact absurd h (by simp)

/-- Witness for C7's universally quantified part at the digit string `"55"`. -/
theorem claimC7_witness :
    MakeNumeric [53, 53] = some ⟨Numeric, 2, [0, 1, 1, 0, 1, 1, 1]⟩ ∧
    (⟨Numeric, 2, [0, 1, 1, 0, 1, 1, 1]⟩ : QRSegment).data.length =
      10 * (([53, 53] : List Nat).length / 3) +
        (if ([53, 53] : List Nat).length % 3 = 0 then 0
         else if ([53, 53] : List Nat).length % 3 = 1 then 4 else 7) :=
  ⟨by decide, claimC7.1 [53, 53] ⟨Numeric, 2, [0, 1, 1, 0, 1, 1, 1]⟩ (by decide)⟩

/-! ### Claim C8: MakeECI -/

/-- C8: `MakeECI` fails exactly for assignment values `≥ 1,000,000`; otherwise
it returns an ECI segment with zero character count whose payload is 8, 16 or
24 bits according to the value's range. -/
theorem claimC8 (a : Nat) :
    (MakeECI a = none ↔ 1000000 ≤ a) ∧
    ∀ seg, MakeECI a = some seg →
      seg.numChars = 0 ∧
      seg.data.length = if a < 2 ^ 7 then 8 else if a < 2 ^ 14 then 16 else 24 := by
  have h7 : (1 <<< 7 : Nat) = 2 ^ 7 := by decide
  have h14 : (1 <<< 14 : Nat) = 2 ^ 14 := by decide
  unfold MakeECI
  rw [h7, h14]
  by_cases h1 : a < 2 ^ 7
  · rw [if_pos h1]
    refine ⟨by simp [show ¬(1000000 ≤ a) by omega], ?_⟩
    intro seg h
    have := (Option.some.injEq _ _).mp h
    rw [← this]
    refine ⟨rfl, ?_⟩
    rw [if_pos h1]
    exact appendBitsList_length a 8
  · rw [if_neg h1]
    by_cases h2 : a < 2 ^ 14
    · rw [if_pos h2]
      refine ⟨by simp [show ¬(1000000 ≤ a) by omega], ?_⟩
      intro seg h
      have := (Option.some.injEq _ _).mp h
      rw [← this]
      refine ⟨rfl, ?_⟩
      rw [if_neg h1, if_pos h2]
      simp [List.length_append, appendBitsList_length]
    · rw [if_neg h2]
      by_cases h3 : a < 1000000
      · rw [if_pos h3]
        refine ⟨by simp [show ¬(1000000 ≤ a) by omega], ?_⟩
        intro seg h
        have := (Option.some.injEq _ _).mp h
        rw [← this]
        refine ⟨rfl, ?_⟩
        rw [if_neg h1, if_neg h2]
        simp [List.length_append, appendBitsList_length]
      · rw [if_neg h3]
        refine ⟨by simp [show 1000000 ≤ a by omega], ?_⟩
        intro seg h
        exact absurd h (by simp)

/-- Witness for C8 at assignment value 300. -/
theorem claimC8_witness :
    ((MakeECI 300 = none ↔ 1000000 ≤ 300) ∧
      ∀ seg, MakeECI 300 = some seg →
        seg.numChars = 0 ∧
        seg.data.length = if 300 < 2 ^ 7 then 8 else if 300 < 2 ^ 14 then 16 else 24) ∧
    MakeECI 300 ≠ none :=
  ⟨claimC8 300, by decide⟩

/-! ### Claim C9: alignment pattern positions -/

/-- C9: the alignment-position list is empty for version 1 and otherwise
consists of `version/7 + 2` ascending positions starting at 6 and ending at
`version*4+17-7`, with all later gaps equal to the computed even step
(special-cased to 26 for version 32); in particular version 7 gives
`[6, 22, 38]` and version 32 gives `[6, 34, 60, 86, 112, 138]`. -/
theorem claimC9 (v : Nat) (h1 : 1 ≤ v) (h2 : v ≤ 40) :
    (v = 1 → getAlignmentPatternPositions v = []) ∧
    (2 ≤ v →
      (getAlignmentPatternPositions v).length = v / 7 + 2 ∧
      (getAlignmentPatternPositions v).headD 0 = 6 ∧
      (getAlignmentPatternPositions v).getLastD 0 = v * 4 + 17 - 7 ∧
      strictAscending (getAlignmentPatternPositions v) = true ∧
      alignmentStep v % 2 = 0 ∧
      gapsAre (alignmentStep v) (getAlignmentPatternPositions v).tail = true) ∧
    getAlignmentPatternPositions 7 = [6, 22, 38] ∧
    getAlignmentPatternPositions 32 = [6, 34, 60, 86, 112, 138] := by
  have H1 : ∀ w, w < 41 → (w = 1 → getAlignmentPatternPositions w = []) := by decide
  have H2 : ∀ w, w < 41 → 2 ≤ w →
      ((getAlignmentPatternPositions w).length = w / 7 + 2 ∧
        (getAlignmentPatternPositions w).headD 0 = 6 ∧
        (getAlignmentPatternPositions w).getLastD 0 = w * 4 + 17 - 7 ∧
        strictAscending (getAlignmentPatternPositions w) = true ∧
        alignmentStep w % 2 = 0 ∧
        gapsAre (alignmentStep w) (getAlignmentPatternPositions w).tail = true) := by
    decide
  exact ⟨H1 v (by omega), H2 v (by omega), by decide, by decide⟩

/-- Witness for C9 at version 7. -/
theorem claimC9_witness :
    (1 ≤ 7 ∧ 7 ≤ 40) ∧
    ((7 = 1 → getAlignmentPatternPositions 7 = []) ∧
    (2 ≤ 7 →
      (getAlignmentPatternPositions 7).length = 7 / 7 + 2 ∧
      (getAlignmentPatternPositions 7).headD 0 = 6 ∧
      (getAlignmentPatternPositions 7).getLastD 0 = 7 * 4 + 17 - 7 ∧
      strictAscending (getAlignmentPatternPositions 7) = true ∧
      alignmentStep 7 % 2 = 0 ∧
      gapsAre (alignmentStep 7) (getAlignmentPatternPositions 7).tail = true) ∧
    getAlignmentPatternPositions 7 = [6, 22, 38] ∧
    getAlignmentPatternPositions 32 = [6, 34, 60, 86, 112, 138]) :=
  ⟨⟨by decide, by decide⟩, claimC9 7 (by decide) (by decide)⟩

/-! ### Metadata preservation of the drawing steps -/

theorem MetaEq.refl (q : QRCodeM) : MetaEq q q := ⟨rfl, rfl, rfl, rfl⟩

theorem MetaEq.trans {q1 q2 q3 : QRCodeM} (h1 : MetaEq q1 q2) (h2 : MetaEq q2 q3) :
    MetaEq q1 q3 := by
  obtain ⟨a1, b1, c1, d1⟩ := h1
  obtain ⟨a2, b2, c2, d2⟩ := h2
  exact ⟨a2.trans a1, b2.trans b1, c2.trans c1, d2.trans d1⟩

theorem foldl_meta {α} (f : QRCodeM → α → QRCodeM)
    (hf : ∀ q a, MetaEq q (f q a)) :
    ∀ (l : List α) (q : QRCodeM), MetaEq q (l.foldl f q)
  | [], _ => MetaEq.refl _
  | a :: l, q => (hf q a).trans (foldl_meta f hf l (f q a))

theorem setFunctionModule_meta (q : QRCodeM) (x y : Nat) (b : Bool) :
    MetaEq q (setFunctionModule q x y b) := ⟨rfl, rfl, rfl, rfl⟩

theorem applyAssignments_meta (q : QRCodeM) (l : List (Nat × Nat × Bool)) :
    MetaEq q (applyAssignments q l) :=
  foldl_meta (fun q (a : Nat × Nat × Bool) => setFunctionModule q a.1 a.2.1 a.2.2)
    (fun q a => setFunctionModule_meta q a.1 a.2.1 a.2.2) l q

theorem applyMask_meta (q : QRCodeM) (m : Int) : MetaEq q (applyMask q m) :=
  ⟨rfl, rfl, rfl, rfl⟩

theorem drawFormatBits_meta (q : QRCodeM) (mask : Nat) (q' : QRCodeM)
    (h : drawFormatBits q mask = some q') : MetaEq q q' := by
  unfold drawFormatBits at h
  cases hf : formatBits q.ecl with
  | none => rw [hf] at h; exact absurd h (by simp)
  | some fb =>
    rw [hf] at h
    simp only [Option.bind_eq_bind, Option.some_bind] at h
    split at h
    · exact absurd h (by simp)
    · have := (Option.some.injEq _ _).mp h
      rw [← this]
      exact applyAssignments_meta q _

theorem drawVersion_meta (q : QRCodeM) (q' : QRCodeM)
    (h : drawVersion q = some q') : MetaEq q q' := by
  unfold drawVersion at h
  split at h
  · rw [(Option.some.injEq _ _).mp h.symm]
    exact MetaEq.refl q
  · simp only [] at h
    split at h
    · exact absurd h (by simp)
    · have := (Option.some.injEq _ _).mp h
      rw [← this]
      exact foldl_meta _ (fun q i => (setFunctionModule_meta _ _ _ _).trans
        (setFunctionModule_meta _ _ _ _)) _ q

theorem drawFinderPattern_meta (q : QRCodeM) (x y : Nat) :
    MetaEq q (drawFinderPattern q x y) := by
  unfold drawFinderPattern
  apply foldl_meta
  intro q dyi
  apply foldl_meta
  intro q dxi
  simp only []
  split
  · exact setFunctionModule_meta _ _ _ _
  · exact MetaEq.refl _

theorem drawAlignmentPattern_meta (q : QRCodeM) (x y : Nat) :
    MetaEq q (drawAlignmentPattern q x y) := by
  unfold drawAlignmentPattern
  apply foldl_meta
  intro q dy
  apply foldl_meta
  intro q dx
  exact setFunctionModule_meta _ _ _ _

theorem bindFormatVersion_meta (q0 : QRCodeM) (mk : Nat) (q' : QRCodeM)
    (h : (drawFormatBits q0 mk).bind drawVersion = some q') : MetaEq q0 q' := by
  cases hfb : drawFormatBits q0 mk with
  | none => rw [hfb] at h; exact absurd h (by simp)
  | some q1 =>
    rw [hfb] at h
    simp only [Option.some_bind] at h
    exact (drawFormatBits_meta q0 mk q1 hfb).trans (drawVersion_meta q1 q' h)

theorem drawFunctionPatterns_meta (q : QRCodeM) (q' : QRCodeM)
    (h : drawFunctionPatterns q = some q') : MetaEq q q' := by
  unfold drawFunctionPatterns at h
  exact MetaEq.trans (MetaEq.trans (MetaEq.trans (MetaEq.trans (MetaEq.trans
    (foldl_meta _ (fun q i => (setFunctionModule_meta _ _ _ _).trans
      (setFunctionModule_meta _ _ _ _)) _ q)
    (drawFinderPattern_meta _ _ _))
    (drawFinderPattern_meta _ _ _))
    (drawFinderPattern_meta _ _ _))
    (foldl_meta _ (fun q i => foldl_meta _ (fun q j => by
      split
      · exact MetaEq.refl _
      · exact drawAlignmentPattern_meta _ _ _) _ q) _ _))
    (bindFormatVersion_meta _ 0 q' h)

theorem drawCodewords_meta (q : QRCodeM) (data : List Nat) (q' : QRCodeM)
    (h : drawCodewords q data = some q') : MetaEq q q' := by
  unfold drawCodewords at h
  split at h
  · exact absurd h (by simp)
  · simp only [] at h
    split at h
    · exact absurd h (by simp)
    · have := (Option.some.injEq _ _).mp h
      rw [← this]
      exact ⟨rfl, rfl, rfl, rfl⟩

theorem maskLoop_meta : ∀ (idxs : List Nat) (q : QRCodeM) (b p : Int)
    (qf : QRCodeM) (bf pf : Int),
    maskLoop idxs q b p = some (qf, bf, pf) → MetaEq q qf
  | [], q, b, p, qf, bf, pf, h => by
    simp only [maskLoop, Option.some.injEq, Prod.mk.injEq] at h
    rw [← h.1]
    exact MetaEq.refl q
  | i :: rest, q, b, p, qf, bf, pf, h => by
    rw [maskLoop] at h
    cases hfb : drawFormatBits (applyMask q (i : Int)) i with
    | none => rw [hfb] at h; exact absurd h (by simp)
    | some q2 =>
      rw [hfb] at h
      simp only [Option.bind_eq_bind, Option.some_bind] at h
      cases hp : getPenaltyScore q2 with
      | none => rw [hp] at h; exact absurd h (by simp)
      | some penalty =>
        rw [hp] at h
        simp only [Option.some_bind] at h
        exact ((applyMask_meta q _).trans (drawFormatBits_meta _ _ _ hfb)).trans
          ((applyMask_meta q2 _).trans (maskLoop_meta rest _ _ _ qf bf pf h))

theorem handleConstructorMasking_meta (q : QRCodeM) (mask m : Int) (q' : QRCodeM)
    (h : handleConstructorMasking q mask = some (m, q')) : MetaEq q q' := by
  unfold handleConstructorMasking at h
  by_cases hm : mask = -1
  · rw [if_pos hm] at h
    cases hml : maskLoop [0, 1, 2, 3, 4, 5, 6, 7] q (-1) 2147483647 with
    | none => rw [hml] at h; exact absurd h (by simp)
    | some r =>
      rw [hml] at h
      simp only [Option.bind_eq_bind, Option.some_bind, Option.pure_def] at h
      split at h
      · exact absurd h (by simp)
      · cases hfb : drawFormatBits (applyMask r.1 r.2.1) r.2.1.toNat with
        | none => rw [hfb] at h; exact absurd h (by simp)
        | some q2 =>
          rw [hfb] at h
          simp only [Option.some_bind, Option.some.injEq, Prod.mk.injEq] at h
          rw [← h.2]
          exact ((maskLoop_meta _ q _ _ r.1 r.2.1 r.2.2 (by rw [hml])).trans
            (applyMask_meta r.1 _)).trans (drawFormatBits_meta _ _ _ hfb)
  · rw [if_neg hm] at h
    simp only [Option.bind_eq_bind, Option.some_bind, Option.pure_def] at h
    split at h
    · exact absurd h (by simp)
    · cases hfb : drawFormatBits (applyMask q mask) mask.toNat with
      | none => rw [hfb] at h; exact absurd h (by simp)
      | some q2 =>
        rw [hfb] at h
        simp only [Option.some_bind, Option.some.injEq, Prod.mk.injEq] at h
        rw [← h.2]
        exact (applyMask_meta q _).trans (drawFormatBits_meta _ _ _ hfb)

/-! ### Claim C2: ECL boosting -/

theorem findVersionLoop_ok (segs : List QRSegment) (ecl : Nat) :
    ∀ (fuel v0 v : Nat) (used : Int),
    findVersionLoop segs ecl fuel v0 = .ok (v, used) →
    used = getTotalBits segs v ∧ used ≠ -1 ∧ used ≤ numDataCodewords ecl v * 8
  | fuel, v0, v, used, h => by
    rw [findVersionLoop.eq_def] at h
    simp only [] at h
    split at h
    · rename_i hacc
      simp only [Except.ok.injEq, Prod.mk.injEq] at h
      obtain ⟨rfl, rfl⟩ := h
      exact ⟨rfl, hacc.1, hacc.2⟩
    · split at h
      · split at h <;> exact absurd h (by simp)
      · cases fuel with
        | zero => exact absurd h (by simp)
        | succ fuel => exact findVersionLoop_ok segs ecl fuel (v0 + 1) v used h

theorem getTotalBits_neg_one_or_nonneg (segs : List QRSegment) (v : Nat) :
    getTotalBits segs v = -1 ∨ 0 ≤ getTotalBits segs v := by
  have h := getTotalBitsAux_spec v segs 0 (by omega) (by omega)
  rw [show getTotalBits segs v = getTotalBitsAux v 0 segs from rfl, h]
  split
  · exact Or.inl rfl
  · right
    have : (0 : Int) ≤ ((segs.map (segCost v)).sum : Nat) := Int.natCast_nonneg _
    omega

/-- The boosting loop returns the highest level (in `0 ≤ 1 ≤ 2 ≤ 3`) whose
capacity at the chosen version still holds the data, provided boosting is on
and the data fits the requested level. -/
theorem boostEcl_spec (s : segmentEncoder) (hb : s.boostECL = true) (used : Int)
    (v e : Nat) (he : e ≤ 3) (hfit : used ≤ numDataCodewords e v * 8) :
    boostEcl s used v e ≤ 3 ∧
    used ≤ numDataCodewords (boostEcl s used v e) v * 8 ∧
    ∀ l, l ≤ 3 → used ≤ numDataCodewords l v * 8 → l ≤ boostEcl s used v e := by
  unfold boostEcl
  simp only [List.foldl_cons, List.foldl_nil, hb, true_and]
  by_cases h1 : used ≤ numDataCodewords 1 v * 8
  · rw [if_pos h1]
    by_cases h2 : used ≤ numDataCodewords 2 v * 8
    · rw [if_pos h2]
      by_cases h3 : used ≤ numDataCodewords 3 v * 8
      · rw [if_pos h3]
        exact ⟨by omega, h3, fun l hl _ => hl⟩
      · rw [if_neg h3]
        refine ⟨by omega, h2, fun l hl hfl => ?_⟩
        rcases Nat.lt_or_ge l 3 with h | h
        · omega
        · have : l = 3 := by omega
          rw [this] at hfl
          exact absurd hfl h3
    · rw [if_neg h2]
      by_cases h3 : used ≤ numDataCodewords 3 v * 8
      · rw [if_pos h3]
        exact ⟨by omega, h3, fun l hl _ => hl⟩
      · rw [if_neg h3]
        refine ⟨by omega, h1, fun l hl hfl => ?_⟩
        rcases Nat.lt_or_ge l 2 with h | h
        · omega
        · interval_cases l
          · exact absurd hfl h2
          · exact absurd hfl h3
  · rw [if_neg h1]
    by_cases h2 : used ≤ numDataCodewords 2 v * 8
    · rw [if_pos h2]
      by_cases h3 : used ≤ numDataCodewords 3 v * 8
      · rw [if_pos h3]
        exact ⟨by omega, h3, fun l hl _ => hl⟩
      · rw [if_neg h3]
        refine ⟨by omega, h2, fun l hl hfl => ?_⟩
        rcases Nat.lt_or_ge l 3 with h | h
        · omega
        · have : l = 3 := by omega
          rw [this] at hfl
          exact absurd hfl h3
    · rw [if_neg h2]
      by_cases h3 : used ≤ numDataCodewords 3 v * 8
      · rw [if_pos h3]
        exact ⟨by omega, h3, fun l hl _ => hl⟩
      · rw [if_neg h3]
        refine ⟨he, hfit, fun l hl hfl => ?_⟩
        rcases Nat.lt_or_ge l 1 with h | h
        · omega
        · interval_cases l
          · exact absurd hfl h1
          · exact absurd hfl h2
          · exact absurd hfl h3

theorem finishSymbol_ok (version ecl : Nat) (maskOpt : Int) (dcw : List Nat) (c : QRCodeM)
    (h : finishSymbol version ecl maskOpt dcw = .ok c) :
    c.version = version ∧ c.ecl = ecl := by
  unfold finishSymbol at h
  simp only [] at h
  split at h
  · exact absurd h (by simp)
  · rename_i qr1 hqr1
    split at h
    · exact absurd h (by simp)
    · rename_i acw hecc
      split at h
      · exact absurd h (by simp)
      · rename_i qr3 hqr3
        split at h
        · exact absurd h (by simp)
        · rename_i m qr4 hhcm
          have hc := Except.ok.inj h
          rw [← hc]
          have m1 := drawFunctionPatterns_meta _ _ hqr1
          have m3 := drawCodewords_meta _ _ _ hqr3
          have m4 := handleConstructorMasking_meta _ _ _ _ hhcm
          have hm := (m1.trans m3).trans m4
          exact ⟨hm.1, hm.2.2.1⟩

theorem encodeSegmentsBody_ok (segs : List QRSegment) (ecl version : Nat)
    (used maskOpt : Int) (c : QRCodeM)
    (h : encodeSegmentsBody segs ecl version used maskOpt = .ok c) :
    c.version = version ∧ c.ecl = ecl := by
  unfold encodeSegmentsBody at h
  simp only [] at h
  split at h
  · exact absurd h (by simp)
  · split at h
    · exact absurd h (by simp)
    · split at h
      · exact absurd h (by simp)
      · exact finishSymbol_ok _ _ _ _ c h

/-- C2: with ECL boosting enabled (the default), whenever `encodeSegments`
succeeds and reports version `v` and final level `b`, the data-bit total
`used = getTotalBits segs v` fits `b`'s capacity at `v`, and `b` is the
highest of the four levels whose capacity at `v` still holds `used`. -/
theorem claimC2 (segs : List QRSegment) (ecl : Nat)
    (options : List (segmentEncoder → segmentEncoder)) (v b : Nat)
    (hb : (applyOptions options).boostECL = true)
    (h : (encodeSegments segs ecl options).toOption.map (fun c => (c.version, c.ecl))
      = some (v, b)) :
    ∃ used : Int, 0 ≤ used ∧ getTotalBits segs v = used ∧ b ≤ 3 ∧
      used ≤ numDataCodewords b v * 8 ∧
      ∀ l, l ≤ 3 → used ≤ numDataCodewords l v * 8 → l ≤ b := by
  cases hE : encodeSegments segs ecl options with
  | error e => rw [hE] at h; simp [Except.toOption] at h
  | ok c =>
    rw [hE] at h
    simp only [Except.toOption, Option.map_some', Option.some.injEq, Prod.mk.injEq] at h
    obtain ⟨hv, hbe⟩ := h
    unfold encodeSegments at hE
    simp only [] at hE
    split at hE
    · exact absurd hE (by simp)
    · split at hE
      · exact absurd hE (by simp)
      · split at hE
        · exact absurd hE (by simp)
        · rename_i hbounds hmask hecl
          split at hE
          · exact absurd hE (by simp)
          · rename_i version used hfv
            split at hE
            · exact absurd hE (by simp)
            · rename_i hused1
              obtain ⟨husedEq, husedNe, husedFit⟩ :=
                findVersionLoop_ok segs ecl 40 1 version used hfv
              obtain ⟨hcv, hce⟩ := encodeSegmentsBody_ok _ _ _ _ _ _ hE
              have hvv : version = v := by rw [← hv, hcv]
              have hbb : boostEcl (applyOptions options) used version ecl = b := by
                rw [← hbe, hce]
              have hecl3 : ecl ≤ 3 := by omega
              obtain ⟨hb3, hbfit, hbmax⟩ := boostEcl_spec (applyOptions options)
                hb used version ecl hecl3 husedFit
              refine ⟨used, ?_, ?_, ?_, ?_, ?_⟩
              · rcases getTotalBits_neg_one_or_nonneg segs version with h0 | h0
                · rw [husedEq] at husedNe; exact absurd h0 husedNe
                · rw [husedEq]; exact h0
              · rw [← hvv, husedEq]
              · rw [← hbb]; exact hb3
              · rw [← hbb, ← hvv]; exact hbfit
              · intro l hl hfl
                rw [← hbb]
                exact hbmax l hl (by rw [hvv]; exact hfl)

set_option maxHeartbeats 40000000 in
/-- Witness for C2: encoding no segments at requested level Low succeeds with
version 1 and boosted level High. -/
theorem claimC2_witness :
    ((applyOptions []).boostECL = true ∧
      (encodeSegments [] 0 []).toOption.map (fun c => (c.version, c.ecl))
        = some (1, 3)) ∧
    (∃ used : Int, 0 ≤ used ∧ getTotalBits [] 1 = used ∧ (3 : Nat) ≤ 3 ∧
      used ≤ numDataCodewords 3 1 * 8 ∧
      ∀ l, l ≤ 3 → used ≤ numDataCodewords l 1 * 8 → l ≤ 3) := by
  have hmain : (encodeSegments [] 0 []).toOption.map (fun c => (c.version, c.ecl))
      = some (1, 3) := by decide
  exact ⟨⟨by decide, hmain⟩, claimC2 [] 0 [] 1 3 (by decide) hmain⟩

/-! ### Claim C10: encoding the empty string -/

set_option maxHeartbeats 40000000 in
/-- C10: `MakeSegments` of the empty string is the empty segment list, and
`EncodeText` of the empty string at requested level Low succeeds with a
version-1 symbol of size 21 whose final error-correction level is High (level
3), thanks to default ECL boosting. -/
theorem claimC10 :
    MakeSegments [] = [] ∧
    (EncodeText [] 0).toOption.map (fun c => (c.version, c.size, c.ecl))
      = some (1, 21, 3) :=
  ⟨rfl, by decide⟩

/-! ### Claim C1: version bounds -/

set_option maxHeartbeats 40000000 in
/-- C1 states that `EncodeSegments` only accepts versions inside the caller's
`[minVersion, maxVersion]` bounds.  The code violates this: the
version-selection loop scans the package constants `1..40` and never reads
`s.minVersion`/`s.maxVersion` (and `WithMaxVersion` assigns `s.minVersion`).
Concretely, with `WithMinVersion 2` (bounds `[2,40]`) and an empty segment
list the encoder succeeds with version 1, outside the requested bounds;
and `WithMaxVersion 3` leaves `maxVersion` at 40 while setting `minVersion`
to 3, contradicting its own documentation. -/
theorem claimC1_codeBug :
    (applyOptions [WithMinVersion 2]).minVersion = 2 ∧
    (applyOptions [WithMinVersion 2]).maxVersion = 40 ∧
    (encodeSegments [] 0 [WithMinVersion 2]).toOption.map (fun c => c.version)
      = some 1 ∧
    ¬(2 ≤ 1) ∧
    (applyOptions [WithMaxVersion 3]).maxVersion = 40 ∧
    (applyOptions [WithMaxVersion 3]).minVersion = 3 :=
  ⟨by decide, by decide, by decide, by decide, by decide, by decide⟩

/-! ### Claim C4: auto-mask selection

The strategy: the selection loop mutates the symbol, but after each round the
working state differs from the loop's input `q0` only on the format cells
(`StateEq`), so the penalty computed in round `i` equals `penaltySpec q0 i`,
the penalty of mask `i` "on the same unmasked symbol". -/

theorem gridSet_oob {α} (g : List (List α)) (y x : Nat) (v : α)
    (h : ¬(y < g.length ∧ x < (g.getD y []).length)) : gridSet g y x v = g := by
  unfold gridSet
  rcases Nat.lt_or_ge y g.length with hy | hy
  · have hx : (g.getD y []).length ≤ x := by
      rcases Nat.lt_or_ge x (g.getD y []).length with hx | hx
      · exact absurd ⟨hy, hx⟩ h
      · exact hx
    rw [List.set_eq_of_length_le hx, List.getD_eq_getElem g [] hy]
    apply List.ext_getElem (by simp)
    intro j h1 h2
    rcases eq_or_ne y j with rfl | hne
    · simp
    · rw [List.getElem_set_ne hne]
  · rw [List.set_eq_of_length_le hy]

theorem qrExt (q1 q2 : QRCodeM) (h1 : q1.version = q2.version) (h2 : q1.size = q2.size)
    (h3 : q1.ecl = q2.ecl) (h4 : q1.mask = q2.mask) (h5 : q1.modules = q2.modules)
    (h6 : q1.isFunction = q2.isFunction) : q1 = q2 := by
  cases q1
  cases q2
  simp only [] at h1 h2 h3 h4 h5 h6
  rw [h1, h2, h3, h4, h5, h6]

/-- `applyMask` commutes with `setFunctionModule` as long as the written cell
exists in the `isFunction` grid: the write marks the cell as a function cell,
so the mask skips it, which matches masking first and overwriting after. -/
theorem applyMask_setFunctionModule (q : QRCodeM) (m : Int) (x y : Nat) (b : Bool)
    (hy : y < q.isFunction.length) (hx : x < (q.isFunction.getD y []).length) :
    applyMask (setFunctionModule q x y b) m = setFunctionModule (applyMask q m) x y b := by
  apply qrExt
  any_goals rfl
  apply gridExt
  · rw [applyMask_modules_length]
    show (gridSet q.modules y x (bToModule b)).length
      = (gridSet (applyMask q m).modules y x (bToModule b)).length
    rw [gridSet_length, gridSet_length, applyMask_modules_length]
  · intro y0
    rw [applyMask_row_length]
    show ((gridSet q.modules y x (bToModule b)).getD y0 []).length
      = ((gridSet (applyMask q m).modules y x (bToModule b)).getD y0 []).length
    rw [gridSet_row_length, gridSet_row_length, applyMask_row_length]
  · intro y0 x0
    rcases Classical.em (y0 = y ∧ x0 = x) with hc | hne
    · -- the written cell
      rw [hc.1, hc.2]
      rcases Classical.em (y < q.modules.length ∧ x < (q.modules.getD y []).length)
        with hin | hout
      · have hin1 : y < (setFunctionModule q x y b).modules.length := by
          show y < (gridSet q.modules y x (bToModule b)).length
          rw [gridSet_length]; exact hin.1
        have hin2 : x < ((setFunctionModule q x y b).modules.getD y []).length := by
          show x < ((gridSet q.modules y x (bToModule b)).getD y []).length
          rw [gridSet_row_length]; exact hin.2
        rw [applyMask_cell _ m y x hin1 hin2]
        have hsf : gridGetB (setFunctionModule q x y b).isFunction y x = true := by
          show gridGetB (gridSet q.isFunction y x true) y x = true
          exact gridGetB_set_self _ _ _ _ hy hx
        rw [hsf]
        have hset : gridGet (setFunctionModule q x y b).modules y x = bToModule b := by
          show gridGet (gridSet q.modules y x (bToModule b)) y x = bToModule b
          exact gridGet_set_self _ _ _ _ hin.1 hin.2
        rw [hset]
        have hrhs : gridGet (setFunctionModule (applyMask q m) x y b).modules y x
            = bToModule b := by
          show gridGet (gridSet (applyMask q m).modules y x (bToModule b)) y x
            = bToModule b
          exact gridGet_set_self _ _ _ _ (by rw [applyMask_modules_length]; exact hin.1)
            (by rw [applyMask_row_length]; exact hin.2)
        rw [hrhs]
        simp [bToI]
      · -- written cell out of the modules grid: both writes are no-ops
        rw [applyMask_cell_oob _ m y x
          (by show ¬(y < (gridSet q.modules y x (bToModule b)).length ∧
                x < ((gridSet q.modules y x (bToModule b)).getD y []).length)
              rw [gridSet_length, gridSet_row_length]; exact hout)]
        have hs1 : gridGet (setFunctionModule q x y b).modules y x
            = gridGet q.modules y x := by
          show gridGet (gridSet q.modules y x (bToModule b)) y x = gridGet q.modules y x
          rw [gridSet_oob _ _ _ _ hout]
        have hs2 : gridGet (setFunctionModule (applyMask q m) x y b).modules y x
            = gridGet (applyMask q m).modules y x := by
          show gridGet (gridSet (applyMask q m).modules y x (bToModule b)) y x
            = gridGet (applyMask q m).modules y x
          rw [gridSet_oob (applyMask q m).modules y x (bToModule b)
            (by rw [applyMask_modules_length, applyMask_row_length]; exact hout)]
        rw [hs1, hs2, applyMask_cell_oob q m y x hout]
    · -- any other cell: the set does not touch it and the mask offsets agree
      have hrhs : gridGet (setFunctionModule (applyMask q m) x y b).modules y0 x0
          = gridGet (applyMask q m).modules y0 x0 := by
        show gridGet (gridSet (applyMask q m).modules y x (bToModule b)) y0 x0
          = gridGet (applyMask q m).modules y0 x0
        exact gridGet_set_ne _ _ _ _ _ _ hne
      rw [hrhs]
      have hlhs0 : gridGet (setFunctionModule q x y b).modules y0 x0
          = gridGet q.modules y0 x0 := by
        show gridGet (gridSet q.modules y x (bToModule b)) y0 x0 = gridGet q.modules y0 x0
        exact gridGet_set_ne _ _ _ _ _ _ hne
      have hif : gridGetB (setFunctionModule q x y b).isFunction y0 x0
          = gridGetB q.isFunction y0 x0 := by
        show gridGetB (gridSet q.isFunction y x true) y0 x0 = gridGetB q.isFunction y0 x0
        exact gridGetB_set_ne _ _ _ _ _ _ hne
      rcases Classical.em (y0 < q.modules.length ∧ x0 < (q.modules.getD y0 []).length)
        with hin | hout
      · rw [applyMask_cell _ m y0 x0
          (by show y0 < (gridSet q.modules y x (bToModule b)).length
              rw [gridSet_length]; exact hin.1)
          (by show x0 < ((gridSet q.modules y x (bToModule b)).getD y0 []).length
              rw [gridSet_row_length]; exact hin.2)]
        rw [applyMask_cell q m y0 x0 hin.1 hin.2, hlhs0, hif]
      · rw [applyMask_cell_oob _ m y0 x0
          (by show ¬(y0 < (gridSet q.modules y x (bToModule b)).length ∧
                x0 < ((gridSet q.modules y x (bToModule b)).getD y0 []).length)
              rw [gridSet_length, gridSet_row_length]; exact hout)]
        rw [applyMask_cell_oob q m y0 x0 hout, hlhs0]

theorem setFM_modules_length (q : QRCodeM) (x y : Nat) (b : Bool) :
    (setFunctionModule q x y b).modules.length = q.modules.length :=
  gridSet_length _ _ _ _

theorem setFM_modules_row_length (q : QRCodeM) (x y : Nat) (b : Bool) (y' : Nat) :
    ((setFunctionModule q x y b).modules.getD y' []).length = (q.modules.getD y' []).length :=
  gridSet_row_length _ _ _ _ _

theorem setFM_isFunction_length (q : QRCodeM) (x y : Nat) (b : Bool) :
    (setFunctionModule q x y b).isFunction.length = q.isFunction.length :=
  gridSet_length _ _ _ _

theorem setFM_isFunction_row_length (q : QRCodeM) (x y : Nat) (b : Bool) (y' : Nat) :
    ((setFunctionModule q x y b).isFunction.getD y' []).length
      = (q.isFunction.getD y' []).length :=
  gridSet_row_length _ _ _ _ _

theorem applyAssignments_nil (q : QRCodeM) : applyAssignments q [] = q := rfl

theorem applyAssignments_cons (q : QRCodeM) (a : Nat × Nat × Bool) (t : List (Nat × Nat × Bool)) :
    applyAssignments q (a :: t) = applyAssignments (setFunctionModule q a.1 a.2.1 a.2.2) t := rfl

theorem applyAssignments_modules_length : ∀ (l : List (Nat × Nat × Bool)) (q : QRCodeM),
    (applyAssignments q l).modules.length = q.modules.length
  | [], _ => rfl
  | a :: t, q => by
    rw [applyAssignments_cons, applyAssignments_modules_length t, setFM_modules_length]

theorem applyAssignments_modules_row_length : ∀ (l : List (Nat × Nat × Bool)) (q : QRCodeM)
    (y : Nat), ((applyAssignments q l).modules.getD y []).length = (q.modules.getD y []).length
  | [], _, _ => rfl
  | a :: t, q, y => by
    rw [applyAssignments_cons, applyAssignments_modules_row_length t,
      setFM_modules_row_length]

theorem applyAssignments_isFunction_length : ∀ (l : List (Nat × Nat × Bool)) (q : QRCodeM),
    (applyAssignments q l).isFunction.length = q.isFunction.length
  | [], _ => rfl
  | a :: t, q => by
    rw [applyAssignments_cons, applyAssignments_isFunction_length t, setFM_isFunction_length]

theorem applyAssignments_isFunction_row_length : ∀ (l : List (Nat × Nat × Bool)) (q : QRCodeM)
    (y : Nat),
    ((applyAssignments q l).isFunction.getD y []).length = (q.isFunction.getD y []).length
  | [], _, _ => rfl
  | a :: t, q, y => by
    rw [applyAssignments_cons, applyAssignments_isFunction_row_length t,
      setFM_isFunction_row_length]

theorem writesTo_nil (y x : Nat) : writesTo [] y x = false := rfl

theorem writesTo_cons (a : Nat × Nat × Bool) (t : List (Nat × Nat × Bool)) (y x : Nat) :
    writesTo (a :: t) y x = ((a.2.1 == y && a.1 == x) || writesTo t y x) := by
  simp [writesTo]

/-- A cell the list never writes keeps its module value. -/
theorem applyAssignments_modules_unwritten : ∀ (l : List (Nat × Nat × Bool)) (q : QRCodeM)
    (y x : Nat), writesTo l y x = false →
    gridGet (applyAssignments q l).modules y x = gridGet q.modules y x
  | [], _, _, _, _ => rfl
  | a :: t, q, y, x, hw => by
    rw [writesTo_cons, Bool.or_eq_false_iff] at hw
    rw [applyAssignments_cons, applyAssignments_modules_unwritten t _ y x hw.2]
    show gridGet (gridSet q.modules a.2.1 a.1 (bToModule a.2.2)) y x = gridGet q.modules y x
    apply gridGet_set_ne
    intro hcon
    rw [hcon.1, hcon.2] at hw
    simp at hw

/-- A cell the list never writes keeps its function flag. -/
theorem applyAssignments_isFunction_unwritten : ∀ (l : List (Nat × Nat × Bool)) (q : QRCodeM)
    (y x : Nat), writesTo l y x = false →
    gridGetB (applyAssignments q l).isFunction y x = gridGetB q.isFunction y x
  | [], _, _, _, _ => rfl
  | a :: t, q, y, x, hw => by
    rw [writesTo_cons, Bool.or_eq_false_iff] at hw
    rw [applyAssignments_cons, applyAssignments_isFunction_unwritten t _ y x hw.2]
    show gridGetB (gridSet q.isFunction a.2.1 a.1 true) y x = gridGetB q.isFunction y x
    apply gridGetB_set_ne
    intro hcon
    rw [hcon.1, hcon.2] at hw
    simp at hw

/-- `writesTo` only looks at the coordinates of an assignment list. -/
theorem writesTo_coords : ∀ (l : List (Nat × Nat × Bool)) (y x : Nat),
    writesTo l y x = (l.map (fun a => (a.1, a.2.1))).any (fun c => c.2 == y && c.1 == x)
  | [], _, _ => rfl
  | a :: t, y, x => by
    rw [writesTo_cons, writesTo_coords t y x]
    simp [List.any_cons]

/-- The coordinates written by `drawFormatBits` do not depend on the format
bit values. -/
theorem formatAssignments_coordMap (bits size : Nat) :
    (formatAssignments bits size).map (fun a => (a.1, a.2.1))
      = (formatAssignments 0 size).map (fun a => (a.1, a.2.1)) := by
  simp only [formatAssignments, List.map_append, List.map_map, List.map_cons, List.map_nil]
  rfl

theorem writesTo_formatAssignments (bits size y x : Nat) :
    writesTo (formatAssignments bits size) y x = isFmtCell size y x := by
  rw [isFmtCell, writesTo_coords, writesTo_coords, formatAssignments_coordMap]

/-- Every cell `drawFormatBits` writes lies inside the `size × size` square
(for the sizes of real symbols). -/
theorem formatAssignments_coords (bits size : Nat) (hsz : 21 ≤ size) :
    ∀ a ∈ formatAssignments bits size, a.2.1 < size ∧ a.1 < size := by
  intro a ha
  simp only [formatAssignments, List.mem_append, List.mem_map, List.mem_range,
    List.mem_cons, List.mem_singleton, List.not_mem_nil, or_false] at ha
  rcases ha with ((((⟨i, hi, rfl⟩ | rfl | rfl | rfl) | ⟨k, hk, rfl⟩) | ⟨i, hi, rfl⟩) |
    ⟨k, hk, rfl⟩) | rfl
  all_goals refine ⟨?_, ?_⟩ <;> simp <;> omega

theorem Shapes_modules_row (q : QRCodeM) (hS : Shapes q) (y : Nat)
    (hy : y < q.modules.length) : (q.modules.getD y []).length = q.size := by
  rw [List.getD_eq_getElem q.modules [] hy]
  exact hS.2.1 _ (List.getElem_mem hy)

theorem Shapes_isFunction_row (q : QRCodeM) (hS : Shapes q) (y : Nat)
    (hy : y < q.isFunction.length) : (q.isFunction.getD y []).length = q.size := by
  rw [List.getD_eq_getElem q.isFunction [] hy]
  exact hS.2.2.2 _ (List.getElem_mem hy)

/-- Applying the same in-range assignment list to two codes that agree on
all metadata, all shapes and all unwritten cells yields equal codes. -/
theorem applyAssignments_congr (l : List (Nat × Nat × Bool)) :
    ∀ (q1 q2 : QRCodeM),
    q1.version = q2.version → q1.size = q2.size → q1.ecl = q2.ecl → q1.mask = q2.mask →
    q1.modules.length = q2.modules.length →
    (∀ y, (q1.modules.getD y []).length = (q2.modules.getD y []).length) →
    q1.isFunction.length = q2.isFunction.length →
    (∀ y, (q1.isFunction.getD y []).length = (q2.isFunction.getD y []).length) →
    (∀ a ∈ l, a.2.1 < q1.modules.length ∧ a.1 < (q1.modules.getD a.2.1 []).length ∧
      a.2.1 < q1.isFunction.length ∧ a.1 < (q1.isFunction.getD a.2.1 []).length) →
    (∀ y x, writesTo l y x = false → gridGet q1.modules y x = gridGet q2.modules y x) →
    (∀ y x, writesTo l y x = false → gridGetB q1.isFunction y x = gridGetB q2.isFunction y x) →
    applyAssignments q1 l = applyAssignments q2 l := by
  induction l with
  | nil =>
    intro q1 q2 hv hs he hm hlen hrow hflen hfrow hin hcell hfcell
    rw [applyAssignments_nil, applyAssignments_nil]
    apply qrExt _ _ hv hs he hm
    · exact gridExt _ _ hlen hrow (fun y x => hcell y x rfl)
    · exact gridExtB _ _ hflen hfrow (fun y x => hfcell y x rfl)
  | cons a t ih =>
    intro q1 q2 hv hs he hm hlen hrow hflen hfrow hin hcell hfcell
    have hina := hin a (List.mem_cons_self a t)
    rw [applyAssignments_cons, applyAssignments_cons]
    apply ih
    · exact hv
    · exact hs
    · exact he
    · exact hm
    · rw [setFM_modules_length, setFM_modules_length]; exact hlen
    · intro y; rw [setFM_modules_row_length, setFM_modules_row_length]; exact hrow y
    · rw [setFM_isFunction_length, setFM_isFunction_length]; exact hflen
    · intro y
      rw [setFM_isFunction_row_length, setFM_isFunction_row_length]; exact hfrow y
    · intro c hc
      rw [setFM_modules_length, setFM_modules_row_length, setFM_isFunction_length,
        setFM_isFunction_row_length]
      exact hin c (List.mem_cons_of_mem a hc)
    · intro y x hw
      rcases Bool.eq_false_or_eq_true (a.2.1 == y && a.1 == x) with hh | hh
      · have hhy : a.2.1 = y ∧ a.1 = x := by simpa using hh
        have e1 : gridGet (setFunctionModule q1 a.1 a.2.1 a.2.2).modules y x
            = bToModule a.2.2 := by
          rw [← hhy.1, ← hhy.2]
          show gridGet (gridSet q1.modules a.2.1 a.1 (bToModule a.2.2)) a.2.1 a.1 = _
          exact gridGet_set_self _ _ _ _ hina.1 hina.2.1
        have e2 : gridGet (setFunctionModule q2 a.1 a.2.1 a.2.2).modules y x
            = bToModule a.2.2 := by
          rw [← hhy.1, ← hhy.2]
          show gridGet (gridSet q2.modules a.2.1 a.1 (bToModule a.2.2)) a.2.1 a.1 = _
          exact gridGet_set_self _ _ _ _ (by rw [← hlen]; exact hina.1)
            (by rw [← hrow a.2.1]; exact hina.2.1)
        rw [e1, e2]
      · have hne : ¬(y = a.2.1 ∧ x = a.1) := by
          intro hcon
          rw [hcon.1, hcon.2] at hh
          simp at hh
        have e1 : gridGet (setFunctionModule q1 a.1 a.2.1 a.2.2).modules y x
            = gridGet q1.modules y x := by
          show gridGet (gridSet q1.modules a.2.1 a.1 (bToModule a.2.2)) y x = _
          exact gridGet_set_ne _ _ _ _ _ _ hne
        have e2 : gridGet (setFunctionModule q2 a.1 a.2.1 a.2.2).modules y x
            = gridGet q2.modules y x := by
          show gridGet (gridSet q2.modules a.2.1 a.1 (bToModule a.2.2)) y x = _
          exact gridGet_set_ne _ _ _ _ _ _ hne
        rw [e1, e2]
        apply hcell
        rw [writesTo_cons, hh, hw]
        rfl
    · intro y x hw
      rcases Bool.eq_false_or_eq_true (a.2.1 == y && a.1 == x) with hh | hh
      · have hhy : a.2.1 = y ∧ a.1 = x := by simpa using hh
        have e1 : gridGetB (setFunctionModule q1 a.1 a.2.1 a.2.2).isFunction y x
            = true := by
          rw [← hhy.1, ← hhy.2]
          show gridGetB (gridSet q1.isFunction a.2.1 a.1 true) a.2.1 a.1 = _
          exact gridGetB_set_self _ _ _ _ hina.2.2.1 hina.2.2.2
        have e2 : gridGetB (setFunctionModule q2 a.1 a.2.1 a.2.2).isFunction y x
            = true := by
          rw [← hhy.1, ← hhy.2]
          show gridGetB (gridSet q2.isFunction a.2.1 a.1 true) a.2.1 a.1 = _
          exact gridGetB_set_self _ _ _ _ (by rw [← hflen]; exact hina.2.2.1)
            (by rw [← hfrow a.2.1]; exact hina.2.2.2)
        rw [e1, e2]
      · have hne : ¬(y = a.2.1 ∧ x = a.1) := by
          intro hcon
          rw [hcon.1, hcon.2] at hh
          simp at hh
        have e1 : gridGetB (setFunctionModule q1 a.1 a.2.1 a.2.2).isFunction y x
            = gridGetB q1.isFunction y x := by
          show gridGetB (gridSet q1.isFunction a.2.1 a.1 true) y x = _
          exact gridGetB_set_ne _ _ _ _ _ _ hne
        have e2 : gridGetB (setFunctionModule q2 a.1 a.2.1 a.2.2).isFunction y x
            = gridGetB q2.isFunction y x := by
          show gridGetB (gridSet q2.isFunction a.2.1 a.1 true) y x = _
          exact gridGetB_set_ne _ _ _ _ _ _ hne
        rw [e1, e2]
        apply hfcell
        rw [writesTo_cons, hh, hw]
        rfl

/-- Round equality: two `StateEq`-related states produce the *same* symbol
(and hence the same penalty) when mask `i` is applied and its format bits are
drawn, because `drawFormatBits` overwrites exactly the cells on which the
states may differ. -/
theorem drawFormatBits_stateEq (q0 s : QRCodeM) (i : Nat) (hS : Shapes q0)
    (hsz : 21 ≤ q0.size) (h : StateEq q0 s) :
    drawFormatBits (applyMask s (i : Int)) i = drawFormatBits (applyMask q0 (i : Int)) i := by
  obtain ⟨hv, hs, he, hm, hlen, hrow, hflen, hfrow, hfcell, hcell⟩ := h
  have hAA : ∀ bits, applyAssignments (applyMask s (i : Int)) (formatAssignments bits q0.size)
      = applyAssignments (applyMask q0 (i : Int)) (formatAssignments bits q0.size) := by
    intro bits
    apply applyAssignments_congr
    · rw [applyMask_version, applyMask_version]; exact hv
    · rw [applyMask_size, applyMask_size]; exact hs
    · rw [applyMask_ecl, applyMask_ecl]; exact he
    · rw [applyMask_mask, applyMask_mask]; exact hm
    · rw [applyMask_modules_length, applyMask_modules_length]; exact hlen
    · intro y; rw [applyMask_row_length, applyMask_row_length]; exact hrow y
    · rw [applyMask_isFunction, applyMask_isFunction]; exact hflen
    · intro y; rw [applyMask_isFunction, applyMask_isFunction]; exact hfrow y
    · intro a ha
      have hco := formatAssignments_coords bits q0.size hsz a ha
      refine ⟨?_, ?_, ?_, ?_⟩
      · rw [applyMask_modules_length, hlen, hS.1]; exact hco.1
      · rw [applyMask_row_length, hrow a.2.1,
          Shapes_modules_row q0 hS a.2.1 (by rw [hS.1]; exact hco.1)]
        exact hco.2
      · rw [applyMask_isFunction, hflen, hS.2.2.1]; exact hco.1
      · rw [applyMask_isFunction, hfrow a.2.1,
          Shapes_isFunction_row q0 hS a.2.1 (by rw [hS.2.2.1]; exact hco.1)]
        exact hco.2
    · intro y x hw
      rw [writesTo_formatAssignments] at hw
      rcases Classical.em (y < q0.modules.length ∧ x < (q0.modules.getD y []).length)
        with hin | hout
      · rw [applyMask_cell s (i : Int) y x (by rw [hlen]; exact hin.1)
            (by rw [hrow y]; exact hin.2),
          applyMask_cell q0 (i : Int) y x hin.1 hin.2, hcell y x hw, hfcell y x hw]
      · rw [applyMask_cell_oob s (i : Int) y x (by rw [hlen, hrow y]; exact hout),
          applyMask_cell_oob q0 (i : Int) y x hout]
        exact hcell y x hw
    · intro y x hw
      rw [writesTo_formatAssignments] at hw
      rw [applyMask_isFunction, applyMask_isFunction]
      exact hfcell y x hw
  simp only [drawFormatBits, applyMask_ecl, applyMask_size, he, hs, hAA]

/-- Applying mask `i`, drawing format bits and applying mask `i` again leaves
a state that differs from `q0` only on the format cells. -/
theorem stateEq_applyDraw (q0 : QRCodeM) (i : Nat) (bits : Nat) :
    StateEq q0 (applyMask (applyAssignments (applyMask q0 (i : Int))
      (formatAssignments bits q0.size)) (i : Int)) := by
  have hMeta := applyAssignments_meta (applyMask q0 (i : Int)) (formatAssignments bits q0.size)
  refine ⟨?_, ?_, ?_, ?_, ?_, ?_, ?_, ?_, ?_, ?_⟩
  · rw [applyMask_version, hMeta.1, applyMask_version]
  · rw [applyMask_size, hMeta.2.1, applyMask_size]
  · rw [applyMask_ecl, hMeta.2.2.1, applyMask_ecl]
  · rw [applyMask_mask, hMeta.2.2.2, applyMask_mask]
  · rw [applyMask_modules_length, applyAssignments_modules_length,
      applyMask_modules_length]
  · intro y
    rw [applyMask_row_length, applyAssignments_modules_row_length, applyMask_row_length]
  · rw [applyMask_isFunction, applyAssignments_isFunction_length, applyMask_isFunction]
  · intro y
    rw [applyMask_isFunction, applyAssignments_isFunction_row_length, applyMask_isFunction]
  · intro y x hw
    have hwT : writesTo (formatAssignments bits q0.size) y x = false := by
      rw [writesTo_formatAssignments]; exact hw
    rw [applyMask_isFunction, applyAssignments_isFunction_unwritten _ _ _ _ hwT,
      applyMask_isFunction]
  · intro y x hw
    have hwT : writesTo (formatAssignments bits q0.size) y x = false := by
      rw [writesTo_formatAssignments]; exact hw
    rcases Classical.em (y < q0.modules.length ∧ x < (q0.modules.getD y []).length)
      with hin | hout
    · rw [applyMask_cell _ (i : Int) y x
        (by rw [applyAssignments_modules_length, applyMask_modules_length]; exact hin.1)
        (by rw [applyAssignments_modules_row_length, applyMask_row_length]; exact hin.2),
        applyAssignments_modules_unwritten _ _ _ _ hwT,
        applyMask_cell q0 (i : Int) y x hin.1 hin.2,
        applyAssignments_isFunction_unwritten _ _ _ _ hwT, applyMask_isFunction,
        Nat.xor_assoc, Nat.xor_self, Nat.xor_zero]
    · rw [applyMask_cell_oob _ (i : Int) y x
        (by rw [applyAssignments_modules_length, applyMask_modules_length,
              applyAssignments_modules_row_length, applyMask_row_length]
            exact hout),
        applyAssignments_modules_unwritten _ _ _ _ hwT,
        applyMask_cell_oob q0 (i : Int) y x hout]

/-- One loop round preserves `StateEq`. -/
theorem stateEq_next (q0 s q2 : QRCodeM) (i : Nat) (hS : Shapes q0) (hsz : 21 ≤ q0.size)
    (h : StateEq q0 s) (h2 : drawFormatBits (applyMask s (i : Int)) i = some q2) :
    StateEq q0 (applyMask q2 (i : Int)) := by
  rw [drawFormatBits_stateEq q0 s i hS hsz h] at h2
  unfold drawFormatBits at h2
  cases hf : formatBits (applyMask q0 (i : Int)).ecl with
  | none => rw [hf] at h2; exact absurd h2 (by simp)
  | some fb =>
    rw [hf] at h2
    simp only [Option.bind_eq_bind, Option.some_bind, applyMask_size] at h2
    split at h2
    · exact absurd h2 (by simp)
    · have hq2 := (Option.some.injEq _ _).mp h2
      rw [← hq2]
      exact stateEq_applyDraw q0 i _

/-- The selection loop started in any `StateEq`-related state computes exactly
the best-mask fold `runBest` over penalties of the fixed symbol `q0`, and its
final state is again `StateEq`-related to `q0`. -/
theorem maskLoop_spec (q0 : QRCodeM) (hS : Shapes q0) (hsz : 21 ≤ q0.size) :
    ∀ (idxs : List Nat) (s : QRCodeM) (b p : Int), StateEq q0 s →
    ∃ sf, StateEq q0 sf ∧
      maskLoop idxs s b p = (runBest q0 idxs b p).map (fun r => (sf, r.1, r.2)) := by
  intro idxs
  induction idxs with
  | nil =>
    intro s b p h
    exact ⟨s, h, rfl⟩
  | cons i rest ih =>
    intro s b p h
    have hdf := drawFormatBits_stateEq q0 s i hS hsz h
    cases hd : drawFormatBits (applyMask q0 (i : Int)) i with
    | none =>
      refine ⟨s, h, ?_⟩
      simp only [maskLoop, runBest, penaltySpec, hdf, hd, Option.bind_eq_bind,
        Option.none_bind, Option.bind_none, Option.map_none']
    | some q2 =>
      have h2 : drawFormatBits (applyMask s (i : Int)) i = some q2 := hdf.trans hd
      cases hp : getPenaltyScore q2 with
      | none =>
        refine ⟨s, h, ?_⟩
        simp only [maskLoop, runBest, penaltySpec, hdf, hd, hp, Option.bind_eq_bind,
          Option.some_bind, Option.none_bind, Option.bind_none, Option.map_none']
      | some pen =>
        have h3 := stateEq_next q0 s q2 i hS hsz h h2
        by_cases hlt : pen < p
        · obtain ⟨sf, hsf, heq⟩ := ih (applyMask q2 (i : Int)) (i : Int) pen h3
          refine ⟨sf, hsf, ?_⟩
          simp only [maskLoop, runBest, penaltySpec, hdf, hd, hp, hlt, Option.bind_eq_bind,
            Option.some_bind, if_true]
          exact heq
        · obtain ⟨sf, hsf, heq⟩ := ih (applyMask q2 (i : Int)) b p h3
          refine ⟨sf, hsf, ?_⟩
          simp only [maskLoop, runBest, penaltySpec, hdf, hd, hp, hlt, Option.bind_eq_bind,
            Option.some_bind, if_false]
          exact heq

/-- `runBest` maintains `InvBest`, provided the pending candidates are
ascending and larger than every processed one (true of the `0..7` scan). -/
theorem runBest_inv (q0 : QRCodeM) : ∀ (rest P : List Nat) (b p b' p' : Int),
    InvBest q0 P b p →
    (∀ i ∈ rest, ∀ j ∈ P, j < i) →
    rest.Pairwise (· < ·) →
    runBest q0 rest b p = some (b', p') →
    InvBest q0 (P ++ rest) b' p' := by
  intro rest
  induction rest with
  | nil =>
    intro P b p b' p' hInv horder hpair hrun
    have := Option.some.inj hrun
    injection this with h1 h2
    rw [List.append_nil, ← h1, ← h2]
    exact hInv
  | cons i rest ih =>
    intro P b p b' p' hInv horder hpair hrun
    rw [runBest] at hrun
    cases hpi : penaltySpec q0 i with
    | none => rw [hpi] at hrun; exact absurd hrun (by simp)
    | some pi =>
      rw [hpi, Option.some_bind] at hrun
      have hP : P ++ i :: rest = (P ++ [i]) ++ rest := by
        rw [List.append_assoc, List.singleton_append]
      rw [hP]
      have horder' : ∀ i' ∈ rest, ∀ j ∈ P ++ [i], j < i' := by
        intro i' hi' j hj
        rcases List.mem_append.mp hj with hj | hj
        · exact horder i' (List.mem_cons_of_mem i hi') j hj
        · rw [List.mem_singleton.mp hj]
          exact (List.pairwise_cons.mp hpair).1 i' hi'
      have hpair' : rest.Pairwise (· < ·) := (List.pairwise_cons.mp hpair).2
      by_cases hlt : pi < p
      · rw [if_pos hlt] at hrun
        apply ih (P ++ [i]) (i : Int) pi b' p' _ horder' hpair' hrun
        constructor
        · intro j hj
          rcases List.mem_append.mp hj with hj | hj
          · obtain ⟨pj, hpj, hle⟩ := hInv.1 j hj
            exact ⟨pj, hpj, le_of_lt (lt_of_lt_of_le hlt hle)⟩
          · rw [List.mem_singleton.mp hj]
            exact ⟨pi, hpi, le_refl pi⟩
        · refine Or.inr ⟨i, rfl, List.mem_append.mpr (Or.inr (List.mem_singleton.mpr rfl)),
            hpi, ?_⟩
          intro j hj hji pj hpj
          rcases List.mem_append.mp hj with hj | hj
          · obtain ⟨pj', hpj', hle⟩ := hInv.1 j hj
            rw [hpj] at hpj'
            rw [← Option.some.inj hpj'] at hle
            exact lt_of_lt_of_le hlt hle
          · rw [List.mem_singleton.mp hj] at hji
            exact absurd hji (lt_irrefl i)
      · rw [if_neg hlt] at hrun
        apply ih (P ++ [i]) b p b' p' _ horder' hpair' hrun
        have hple : p ≤ pi := le_of_not_lt hlt
        constructor
        · intro j hj
          rcases List.mem_append.mp hj with hj | hj
          · exact hInv.1 j hj
          · rw [List.mem_singleton.mp hj]
            exact ⟨pi, hpi, hple⟩
        · rcases hInv.2 with hstart | ⟨bn, hbn, hmem, hpen, hstrict⟩
          · exact Or.inl hstart
          · refine Or.inr ⟨bn, hbn, List.mem_append.mpr (Or.inl hmem), hpen, ?_⟩
            intro j hj hji pj hpj
            rcases List.mem_append.mp hj with hj | hj
            · exact hstrict j hj hji pj hpj
            · rw [List.mem_singleton.mp hj] at hji
              have := horder i (List.mem_cons_self i rest) bn hmem
              omega

theorem StateEq_refl (q : QRCodeM) : StateEq q q :=
  ⟨rfl, rfl, rfl, rfl, rfl, fun _ => rfl, rfl, fun _ => rfl, fun _ _ _ => rfl,
    fun _ _ _ => rfl⟩

/-- C4: with the auto-select sentinel `-1`, `handleConstructorMasking` returns
a mask `m ∈ [0,7]`; every candidate mask's penalty (computed by applying that
mask to the unmasked symbol and drawing its format bits) is defined; the
penalty of `m` is ≤ the penalty of each of the other 7 masks on the same
unmasked symbol, strictly smaller than the penalty of every lower-numbered
mask (first seen wins ties); and the finished symbol is exactly the unmasked
symbol with mask `m` applied and its format bits redrawn for `m`. -/
theorem claimC4 (q : QRCodeM) (m : Int) (hS : Shapes q) (hsz : 21 ≤ q.size)
    (h : (handleConstructorMasking q (-1)).map (fun r => r.1) = some m) :
    (0 ≤ m ∧ m ≤ 7) ∧
    (∀ i : Nat, i ≤ 7 → ∃ pi, penaltySpec q i = some pi) ∧
    (∃ pm, penaltySpec q m.toNat = some pm ∧
      (∀ i : Nat, i ≤ 7 → ∀ pi, penaltySpec q i = some pi → pm ≤ pi) ∧
      (∀ i : Nat, i < m.toNat → ∀ pi, penaltySpec q i = some pi → pm < pi)) ∧
    (handleConstructorMasking q (-1)).map (fun r => r.2)
      = drawFormatBits (applyMask q m) m.toNat := by
  obtain ⟨sf, hsf, hml⟩ := maskLoop_spec q hS hsz [0, 1, 2, 3, 4, 5, 6, 7] q
    (-1) 2147483647 (StateEq_refl q)
  cases hrb : runBest q [0, 1, 2, 3, 4, 5, 6, 7] (-1) 2147483647 with
  | none =>
    have hnone : handleConstructorMasking q (-1) = none := by
      rw [handleConstructorMasking]
      simp [hml, hrb]
    rw [hnone] at h
    exact absurd h (by simp)
  | some r =>
    obtain ⟨b, p⟩ := r
    have hhc0 : handleConstructorMasking q (-1)
        = if b < 0 ∨ 7 < b then none
          else (drawFormatBits (applyMask sf b) b.toNat).bind (fun qq => some (b, qq)) := by
      rw [handleConstructorMasking]
      simp [hml, hrb]
    by_cases hbad : b < 0 ∨ 7 < b
    · rw [if_pos hbad] at hhc0
      rw [hhc0] at h
      exact absurd h (by simp)
    · rw [if_neg hbad] at hhc0
      push_neg at hbad
      cases hdf : drawFormatBits (applyMask sf b) b.toNat with
      | none =>
        rw [hdf] at hhc0
        rw [hhc0] at h
        exact absurd h (by simp)
      | some qq =>
        rw [hdf, Option.some_bind] at hhc0
        rw [hhc0] at h
        simp only [Option.map_some'] at h
        have hbm : b = m := Option.some.inj h
        subst hbm
        have hInv := runBest_inv q [0, 1, 2, 3, 4, 5, 6, 7] [] (-1) 2147483647 b p
          ⟨by simp, Or.inl ⟨rfl, rfl⟩⟩ (by simp) (by decide) hrb
        rw [List.nil_append] at hInv
        rcases hInv.2 with ⟨hb1, _⟩ | ⟨bn, hbn, hmem, hpen, hstrict⟩
        · exact absurd hb1 (by omega)
        · have hbn7 : bn ≤ 7 := by
            have := hbad.2
            rw [hbn] at this
            exact_mod_cast this
          have htn : b.toNat = bn := by rw [hbn]; simp
          refine ⟨⟨hbad.1, hbad.2⟩, ?_, ?_, ?_⟩
          · intro i hi
            obtain ⟨pi, hpi, _⟩ := hInv.1 i (by simp; omega)
            exact ⟨pi, hpi⟩
          · refine ⟨p, by rw [htn]; exact hpen, ?_, ?_⟩
            · intro i hi pi hpi
              obtain ⟨pi', hpi', hle⟩ := hInv.1 i (by simp; omega)
              rw [hpi] at hpi'
              rw [← Option.some.inj hpi'] at hle
              exact hle
            · intro i hi pi hpi
              rw [htn] at hi
              exact hstrict i (by simp; omega) hi pi hpi
          · rw [hhc0]
            have hL1 := drawFormatBits_stateEq q sf b.toNat hS hsz hsf
            rw [Int.toNat_of_nonneg hbad.1] at hL1
            rw [← hL1, hdf]
            simp

set_option maxHeartbeats 40000000 in
/-- Witness for C4: on the concrete symbol `c4wq` the auto-selection picks
mask 2, and all of C4's conclusions hold there. -/
theorem claimC4_witness :
    Shapes c4wq ∧ 21 ≤ c4wq.size ∧
    (handleConstructorMasking c4wq (-1)).map (fun r => r.1) = some 2 ∧
    ((0 ≤ (2 : Int) ∧ (2 : Int) ≤ 7) ∧
      (∀ i : Nat, i ≤ 7 → ∃ pi, penaltySpec c4wq i = some pi) ∧
      (∃ pm, penaltySpec c4wq (2 : Int).toNat = some pm ∧
        (∀ i : Nat, i ≤ 7 → ∀ pi, penaltySpec c4wq i = some pi → pm ≤ pi) ∧
        (∀ i : Nat, i < (2 : Int).toNat → ∀ pi, penaltySpec c4wq i = some pi → pm < pi)) ∧
      (handleConstructorMasking c4wq (-1)).map (fun r => r.2)
        = drawFormatBits (applyMask c4wq 2) (2 : Int).toNat) := by
  have h : (handleConstructorMasking c4wq (-1)).map (fun r => r.1) = some 2 := by decide
  exact ⟨by decide, by decide, h, claimC4 c4wq 2 (by decide) (by decide) h⟩

end QRGen
